import Mathlib

/-!
Verification of the company-research service (src/main.py) against its
natural-language specification.

The Python program is sequential glue code: it resolves a company identifier
via a chat-completion API, runs a fixed list of research sections through a
web-search API, and summarizes the results with further completion calls.
Both outbound clients wrap their HTTP call in a retry loop with exponential
backoff.  We shallowly embed the request path as pure Lean functions over an
abstract environment `Env` that supplies, per attempt, the outcome of each
outbound call.  Every function additionally returns the list of observable
events (outbound API attempts, logical client calls, sleeps) it performs,
so that properties about which calls are made, with which arguments and in
which order, can be stated and proved.
-/

set_option maxRecDepth 4000

namespace CompanyResearchModel

/-- One chat message, as in the Python dicts with keys role and content. -/
structure Message where
  role : String
  content : String
deriving DecidableEq, Repr

/-- One Tavily search result record; only the title and content fields are
read by the program (main.py line 249). -/
structure SearchResult where
  title : String
  content : String
deriving DecidableEq, Repr

/-- The Tavily search response; only the results list is read. -/
structure SearchResponse where
  results : List SearchResult
deriving DecidableEq, Repr

/-- fastapi.HTTPException as used by the program: a status code and a detail
string. -/
structure HTTPException where
  status_code : Nat
  detail : String
deriving DecidableEq, Repr

/-- starlette renders an HTTPException as status code, colon, detail; this is
what str(e) produces at main.py line 287 when the caught exception is the
HTTPException raised by a retry loop. -/
def strOfHTTPException (e : HTTPException) : String :=
  toString e.status_code ++ ": " ++ e.detail

/-- The abstract environment: per-attempt outcomes of the two outbound HTTP
services and the wall clock.
`llm messages model attempt` is the outcome of the attempt-th POST to the
chat-completions endpoint inside OpenAIClient.generate_response: on success
the content field of the first choice, on failure the message str(e) of the
raised exception.
`tavily query search_depth max_results attempt` likewise abstracts one call
of the underlying TavilyClient.search.
`now` is the value of datetime.now().isoformat(). -/
structure Env where
  llm : List Message → String → Nat → Except String String
  tavily : String → String → Nat → Nat → Except String SearchResponse
  now : String

/-- Observable events of one request, in order of occurrence. -/
inductive Event where
  /-- A logical call of OpenAIClient.generate_response (its entry log line). -/
  | llmCall (messages : List Message) (model : String)
  /-- One underlying POST attempt to the chat-completions API. -/
  | openaiAPICall (messages : List Message) (model : String)
  /-- A logical call of TavilyResearch.search (its entry log line). -/
  | searchCall (query : String)
  /-- One underlying TavilyClient.search attempt, with the arguments the
  program passes (main.py lines 101-105). -/
  | tavilyAPICall (query : String) (search_depth : String) (max_results : Nat)
  /-- A time.sleep for the given number of seconds. -/
  | sleep (seconds : Nat)
deriving DecidableEq, Repr

/-! ## Trace observations -/

/-- Queries of the logical search-client invocations in a trace. -/
def searchCallQueries (evs : List Event) : List String :=
  evs.filterMap (fun ev => match ev with
    | Event.searchCall q => some q
    | _ => none)

/-- Messages of the logical language-model invocations in a trace. -/
def llmCalls (evs : List Event) : List (List Message) :=
  evs.filterMap (fun ev => match ev with
    | Event.llmCall msgs _ => some msgs
    | _ => none)

/-- Arguments of the underlying Tavily API attempts in a trace. -/
def tavilyAPICalls (evs : List Event) : List (String × String × Nat) :=
  evs.filterMap (fun ev => match ev with
    | Event.tavilyAPICall q d m => some (q, d, m)
    | _ => none)

/-- Arguments of the underlying chat-completion API attempts in a trace. -/
def openaiAPICalls (evs : List Event) : List (List Message × String) :=
  evs.filterMap (fun ev => match ev with
    | Event.openaiAPICall msgs mdl => some (msgs, mdl)
    | _ => none)

/-- The sleeps of a trace, in seconds, in order. -/
def sleepsOf (evs : List Event) : List Nat :=
  evs.filterMap (fun ev => match ev with
    | Event.sleep s => some s
    | _ => none)

/-! ## OpenAIClient (main.py lines 46-84) -/

namespace OpenAIClient

/-- The retry loop of OpenAIClient.generate_response (main.py lines 69-84):
max_retries is 3 and retry_delay starts at 1; on an attempt that raises, if
it was the last attempt an HTTPException 500 with the message "OpenAI API
error: " followed by str(e) is raised, otherwise the loop sleeps for
retry_delay seconds and doubles retry_delay.  The attempt list is
range max_retries; the empty case is unreachable from generate_response
because the last attempt always returns or raises. -/
def generate_responseLoop (oracle : Nat → Except String String)
    (messages : List Message) (model : String) (max_retries : Nat) :
    List Nat → Nat → Except HTTPException String × List Event
  | [], _ => (Except.error ⟨500, "OpenAI API error: unreachable"⟩, [])
  | attempt :: rest, retry_delay =>
    match oracle attempt with
    | Except.ok content => (Except.ok content, [Event.openaiAPICall messages model])
    | Except.error e =>
      if attempt == max_retries - 1 then
        (Except.error ⟨500, "OpenAI API error: " ++ e⟩,
         [Event.openaiAPICall messages model])
      else
        let r := generate_responseLoop oracle messages model max_retries rest (retry_delay * 2)
        (r.1, Event.openaiAPICall messages model :: Event.sleep retry_delay :: r.2)

/-- OpenAIClient.generate_response: 3 attempts, starting delay 1 second. -/
def generate_response (env : Env) (messages : List Message) (model : String) :
    Except HTTPException String × List Event :=
  let r := generate_responseLoop (env.llm messages model) messages model 3 (List.range 3) 1
  (r.1, Event.llmCall messages model :: r.2)

end OpenAIClient

/-! ## TavilyResearch (main.py lines 86-113) -/

namespace TavilyResearch

/-- The retry loop of TavilyResearch.search (main.py lines 95-113):
max_retries is 3 and retry_delay starts at 2; every underlying call passes
the query, the search_depth argument and max_results equal to 10.  Error
message prefix is "Tavily API error: ". -/
def searchLoop (oracle : Nat → Except String SearchResponse)
    (query : String) (search_depth : String) (max_retries : Nat) :
    List Nat → Nat → Except HTTPException SearchResponse × List Event
  | [], _ => (Except.error ⟨500, "Tavily API error: unreachable"⟩, [])
  | attempt :: rest, retry_delay =>
    match oracle attempt with
    | Except.ok result => (Except.ok result, [Event.tavilyAPICall query search_depth 10])
    | Except.error e =>
      if attempt == max_retries - 1 then
        (Except.error ⟨500, "Tavily API error: " ++ e⟩,
         [Event.tavilyAPICall query search_depth 10])
      else
        let r := searchLoop oracle query search_depth max_retries rest (retry_delay * 2)
        (r.1, Event.tavilyAPICall query search_depth 10 :: Event.sleep retry_delay :: r.2)

/-- TavilyResearch.search: 3 attempts, starting delay 2 seconds.  The caller
in research_company uses the default search_depth "basic". -/
def search (env : Env) (query : String) (search_depth : String) :
    Except HTTPException SearchResponse × List Event :=
  let r := searchLoop (fun a => env.tavily query search_depth 10 a)
    query search_depth 3 (List.range 3) 2
  (r.1, Event.searchCall query :: r.2)

end TavilyResearch

/-! ## Query template formatting

The templates in research_sections are Python format strings whose only
field is the name company; query.format(company=company_input) replaces each
occurrence of the placeholder with the input (the replacement text is not
re-scanned).  We model that substitution character by character. -/

/-- Replace each occurrence of the placeholder for company in a template by
the company text, as Python str.format does for these templates. -/
def formatChars (company : List Char) : List Char → List Char
  | [] => []
  | '{' :: 'c' :: 'o' :: 'm' :: 'p' :: 'a' :: 'n' :: 'y' :: '}' :: rest =>
    company ++ formatChars company rest
  | c :: rest => c :: formatChars company rest

/-- query.format(company=company_input) for the query templates of
research_sections. -/
def formatQuery (query company : String) : String :=
  String.mk (formatChars company.data query.data)

/-- Python str.join: the separator between consecutive elements, nothing
around them, empty string on the empty list. -/
def joinSep (sep : String) : List String → String
  | [] => ""
  | x :: xs => xs.foldl (fun acc y => acc ++ sep ++ y) x

/-! ## CompanyResearch (main.py lines 115-261) -/

/-- The style-reference string REFERENCE_TEMPLATE (main.py lines 28-44). -/
def REFERENCE_TEMPLATE : String :=
  "\nHere's an example of how the response should be structured and detailed, following the style of Reliance Industries Ltd analysis:\n\nThe response should include detailed sections like:\n1. A comprehensive introduction covering the company's position in its industry and key statistics\n2. Business segments with detailed explanations of each division's operations and performance\n3. Recent financial metrics with specific numbers and growth percentages\n4. Leadership structure with key executive names and roles\n5. Recent developments and future outlook\n\nFor example, the introduction should be as detailed as:\n\"[Company] is [country]'s [position] in [industry] and a [type] company led by [leader]. It has evolved from [historical context] to [current status] with interests spanning [list of sectors].\"\n\nEach business segment should have detailed metrics like:\n\"[Segment name] reported revenue of [amount] for [period], a growth of [percentage] over [comparison period]. The segment operates [number] of [facilities/stores/units] across [locations].\"\n\nFollow this level of detail and structure in your analysis."

/-- One entry of self.research_sections: a dict with a name and either a
single query template (key query) or a list of them (key queries). -/
structure ResearchSection where
  name : String
  query : Option String
  queries : Option (List String)
deriving DecidableEq, Repr

/-- queries = section.get(queries-key, [section[query-key]] if query-key in
section else []) at main.py line 235. -/
def sectionQueries (s : ResearchSection) : List String :=
  match s.queries with
  | some qs => qs
  | none =>
    match s.query with
    | some q => [q]
    | none => []

/-- The hardcoded self.research_sections list (main.py lines 120-193). -/
def research_sections : List ResearchSection :=
  [ { name := "founded_year",
      query := some "When was {company} founded?", queries := none },
    { name := "managing_director",
      query := some "Who is the current CEO of {company}?", queries := none },
    { name := "introduction",
      query := none, queries := some
        [ "What is {company}'s main business?",
          "What are {company}'s key achievements?",
          "What is {company}'s market position?" ] },
    { name := "company_overview",
      query := none, queries := some
        [ "What is {company}'s history?",
          "How has {company} evolved?",
          "What are {company}'s major milestones?" ] },
    { name := "business_segments",
      query := none, queries := some
        [ "What are {company}'s business divisions?",
          "What products does {company} offer?",
          "What services does {company} provide?" ] },
    { name := "leadership",
      query := none, queries := some
        [ "Who leads {company}?",
          "Who are {company}'s board members?",
          "Who are {company}'s executives?" ] },
    { name := "financial_performance",
      query := none, queries := some
        [ "What is {company}'s recent revenue?",
          "What is {company}'s profit growth?",
          "What are {company}'s financial metrics?" ] },
    { name := "business_segment_deep_dive",
      query := none, queries := some
        [ "How do {company}'s divisions perform?",
          "What are {company}'s segment revenues?",
          "How profitable are {company}'s segments?" ] },
    { name := "recent_developments",
      query := none, queries := some
        [ "What are {company}'s latest announcements?",
          "What are {company}'s recent acquisitions?",
          "What are {company}'s new projects?" ] },
    { name := "industry_outlook",
      query := none, queries := some
        [ "How competitive is {company}?",
          "What is {company}'s market share?",
          "What are {company}'s growth prospects?" ] } ]

/-- The CompanyResearch object: the fields read on the request path.  The
model string is "anthropic/claude-3.5-sonnet" and research_sections is the
fixed list above; no method ever assigns to the object after __init__. -/
structure Researcher where
  model : String
  research_sections : List ResearchSection

/-- The module-level researcher = CompanyResearch() instance. -/
def researcher : Researcher :=
  { model := "anthropic/claude-3.5-sonnet", research_sections := research_sections }

namespace CompanyResearch

/-- The prompt built by resolve_company_info (main.py lines 197-198),
with the f-string holes filled in. -/
def resolvePrompt (input_text : String) : String :=
  "Given the input '" ++ input_text ++
    "', if this is a stock code, provide the full company name. \n        If it's a company name, provide the stock code. Respond with only the requested information, no additional text."

/-- The single-element messages list of resolve_company_info. -/
def resolveMessages (input_text : String) : List Message :=
  [{ role := "user", content := resolvePrompt input_text }]

/-- resolve_company_info (main.py lines 195-203): one generate_response call,
returned unmodified. -/
def resolve_company_info (env : Env) (model input_text : String) :
    Except HTTPException String × List Event :=
  OpenAIClient.generate_response env (resolveMessages input_text) model

/-- The prompt built by extract_section_info (main.py lines 207-212),
with the f-string holes filled in. -/
def extractPrompt (content section_name : String) : String :=
  "From the following content, extract and summarize information relevant to " ++
    section_name ++
    ". \n        Follow the style and level of detail shown in this reference example:\n        " ++
    REFERENCE_TEMPLATE ++
    "\n        \n        Content to analyze:\n        " ++ content

/-- The single-element messages list of extract_section_info. -/
def extractMessages (content section_name : String) : List Message :=
  [{ role := "user", content := extractPrompt content section_name }]

/-- extract_section_info (main.py lines 205-217): one generate_response call,
returned unmodified. -/
def extract_section_info (env : Env) (model content section_name : String) :
    Except HTTPException String × List Event :=
  OpenAIClient.generate_response env (extractMessages content section_name) model

/-- The per-result string of main.py line 249. -/
def resultLine (result : SearchResult) : String :=
  "Title: " ++ result.title ++ "\nContent: " ++ result.content

/-- query_content at main.py lines 248-251: the per-result strings joined
with a blank line. -/
def query_contentOf (search_results : SearchResponse) : String :=
  joinSep "\n\n" (search_results.results.map resultLine)

/-- combined_content += "\n\n" + query_content if combined_content else
query_content (main.py line 252): the appended text has a blank-line prefix
exactly when combined_content is nonempty (Python string truthiness). -/
def combineStep (combined_content query_content : String) : String :=
  combined_content ++
    (if combined_content ≠ "" then "\n\n" ++ query_content else query_content)

/-- The for-query loop of research_company (main.py lines 237-252):
format the template, skip it when the formatted query is shorter than 5
characters, otherwise search (depth defaulted to basic) and fold the query
content into combined_content.  A raised HTTPException aborts the loop. -/
def processQueries (env : Env) (company_input : String) :
    List String → String → Except HTTPException String × List Event
  | [], combined_content => (Except.ok combined_content, [])
  | query :: rest, combined_content =>
    let formatted_query := formatQuery query company_input
    if formatted_query.length < 5 then
      processQueries env company_input rest combined_content
    else
      match TavilyResearch.search env formatted_query "basic" with
      | (Except.error e, evs) => (Except.error e, evs)
      | (Except.ok search_results, evs) =>
        let r := processQueries env company_input rest
          (combineStep combined_content (query_contentOf search_results))
        (r.1, evs ++ r.2)

/-- The body of the for-section loop (main.py lines 230-258): run the
queries, summarize the combined content, store the summary under the section
name, then sleep one second. -/
def processSection (env : Env) (model company_input : String)
    (s : ResearchSection) :
    Except HTTPException (String × String) × List Event :=
  match processQueries env company_input (sectionQueries s) "" with
  | (Except.error e, evs) => (Except.error e, evs)
  | (Except.ok combined_content, evs) =>
    match extract_section_info env model combined_content s.name with
    | (Except.error e, evs2) => (Except.error e, evs ++ evs2)
    | (Except.ok section_info, evs2) =>
      (Except.ok (s.name, section_info), evs ++ evs2 ++ [Event.sleep 1])

/-- The for-section loop over self.research_sections, accumulating the
sections mapping in insertion order. -/
def processSections (env : Env) (model company_input : String) :
    List ResearchSection →
    Except HTTPException (List (String × String)) × List Event
  | [] => (Except.ok [], [])
  | s :: rest =>
    match processSection env model company_input s with
    | (Except.error e, evs) => (Except.error e, evs)
    | (Except.ok entry, evs) =>
      match processSections env model company_input rest with
      | (Except.error e, evs2) => (Except.error e, evs ++ evs2)
      | (Except.ok entries, evs2) => (Except.ok (entry :: entries), evs ++ evs2)

end CompanyResearch

/-- The company profile dict built by research_company (main.py lines
223-228): input, resolved_info, timestamp and the sections mapping. -/
structure CompanyProfile where
  input : String
  resolved_info : String
  timestamp : String
  sections : List (String × String)
deriving DecidableEq, Repr

namespace CompanyResearch

/-- research_company (main.py lines 219-261): resolve the company, run all
sections, return the fully populated profile.  Any HTTPException raised by a
client propagates out. -/
def research_company (env : Env) (self : Researcher) (company_input : String) :
    Except HTTPException CompanyProfile × List Event :=
  match resolve_company_info env self.model company_input with
  | (Except.error e, evs) => (Except.error e, evs)
  | (Except.ok resolved_info, evs) =>
    match processSections env self.model company_input self.research_sections with
    | (Except.error e, evs2) => (Except.error e, evs ++ evs2)
    | (Except.ok sections, evs2) =>
      (Except.ok { input := company_input, resolved_info := resolved_info,
                   timestamp := env.now, sections := sections }, evs ++ evs2)

end CompanyResearch

/-- The POST /research_company endpoint (main.py lines 275-287): on any
exception e from research_company it raises HTTPException(500, str(e)). -/
def research_company_endpoint (env : Env) (self : Researcher)
    (company_input : String) :
    Except HTTPException CompanyProfile × List Event :=
  match CompanyResearch.research_company env self company_input with
  | (Except.ok result, evs) => (Except.ok result, evs)
  | (Except.error e, evs) => (Except.error ⟨500, strOfHTTPException e⟩, evs)

/-! ## Derived definitions used to state the properties -/

/-- All query templates of a list of sections, in order. -/
def sectionsQueries : List ResearchSection → List String
  | [] => []
  | s :: rest => sectionQueries s ++ sectionsQueries rest

/-- The formatted queries of a list of sections, in order. -/
def formattedQueries (company : String) (sections : List ResearchSection) :
    List String :=
  (sectionsQueries sections).map (fun q => formatQuery q company)

/-- The formatted queries of one section that survive the length check and
are therefore executed, in template order. -/
def executedQueries (company : String) (s : ResearchSection) : List String :=
  ((sectionQueries s).map (fun q => formatQuery q company)).filter
    (fun q => !decide (q.length < 5))

/-- The search response the environment yields for a query (empty when the
search would fail); the program only reads it on the success path. -/
def searchResponseFor (env : Env) (q : String) : SearchResponse :=
  match (TavilyResearch.search env q "basic").1 with
  | Except.ok r => r
  | Except.error _ => ⟨[]⟩

/-- The combined_content computed by the query loop of one section,
recomputed as a pure fold over the templates (no events, no errors). -/
def foldQueries (env : Env) (company : String) : List String → String → String
  | [], combined_content => combined_content
  | query :: rest, combined_content =>
    let formatted_query := formatQuery query company
    if formatted_query.length < 5 then
      foldQueries env company rest combined_content
    else
      foldQueries env company rest
        (CompanyResearch.combineStep combined_content
          (CompanyResearch.query_contentOf (searchResponseFor env formatted_query)))

/-- The text the code hands to the summarizer for a section, as a closed
form: the fold of the per-query contents with the conditional blank-line
separator of main.py line 252. -/
def codeCombinedContent (env : Env) (company : String) (s : ResearchSection) :
    String :=
  foldQueries env company (sectionQueries s) ""

/-- The combined text as claim C6 words it: over all executed queries in
template order, the per-result strings joined by blank-line separators both
between results of one query and between queries. -/
def specCombinedContent (env : Env) (company : String) (s : ResearchSection) :
    String :=
  joinSep "\n\n" ((executedQueries company s).map
    (fun q => joinSep "\n\n"
      ((searchResponseFor env q).results.map CompanyResearch.resultLine)))

/-- One request handled against the long-lived researcher object.  The
request path only reads the object (self.model, self.research_sections,
the two clients); no method assigns to any field after __init__, so the
state handed to the next request is unchanged. -/
def handleRequest (r : Researcher) (company_input : String) (env : Env) :
    Researcher × (Except HTTPException CompanyProfile × List Event) :=
  (r, research_company_endpoint env r company_input)

/-- A sequence of requests against the module-level researcher object,
threading its state from each request to the next. -/
def runRequests (r : Researcher) :
    List (String × Env) → List (Except HTTPException CompanyProfile × List Event)
  | [] => []
  | (c, e) :: rest =>
    let out := handleRequest r c e
    out.2 :: runRequests out.1 rest

/-- The introduction section (third entry of research_sections). -/
def introductionSection : ResearchSection :=
  researcher.research_sections.getD 2 { name := "", query := none, queries := none }

/-! ## Concrete environments used as witnesses -/

/-- Every outbound attempt succeeds: the language model always replies
"summary" and every search returns an empty result list. -/
def okEnv : Env :=
  { llm := fun _ _ _ => Except.ok "summary",
    tavily := fun _ _ _ _ => Except.ok ⟨[]⟩,
    now := "2026-01-01T00:00:00" }

/-- The language model succeeds but every search attempt raises with
message "boom". -/
def searchFailEnv : Env :=
  { llm := fun _ _ _ => Except.ok "summary",
    tavily := fun _ _ _ _ => Except.error "boom",
    now := "2026-01-01T00:00:00" }

/-- Searches succeed (with no results) and the language model answers only
the resolver prompt for "AAPL"; every other completion attempt, in
particular every summarization, raises with message "boom". -/
def summFailEnv : Env :=
  { llm := fun msgs _ _ =>
      if msgs = CompanyResearch.resolveMessages "AAPL" then Except.ok "Apple Inc"
      else Except.error "boom",
    tavily := fun _ _ _ _ => Except.ok ⟨[]⟩,
    now := "2026-01-01T00:00:00" }

/-- Every outbound attempt succeeds and every search has exactly one
result. -/
def fullEnv : Env :=
  { llm := fun _ _ _ => Except.ok "summary",
    tavily := fun _ _ _ _ => Except.ok ⟨[{ title := "T", content := "C" }]⟩,
    now := "2026-01-01T00:00:00" }


/-- The profile a request for "AAPL" produces in okEnv. -/
def okProfile : CompanyProfile :=
  ⟨"AAPL", "summary", "2026-01-01T00:00:00",
    [("founded_year", "summary"), ("managing_director", "summary"),
     ("introduction", "summary"), ("company_overview", "summary"),
     ("business_segments", "summary"), ("leadership", "summary"),
     ("financial_performance", "summary"), ("business_segment_deep_dive", "summary"),
     ("recent_developments", "summary"), ("industry_outlook", "summary")]⟩


/-- Environment in which every search succeeds (with no results) except the
leadership section's first query for "AAPL", which fails on every attempt:
the failure strikes the sixth section, after five sections completed. -/
def lateFailEnv : Env :=
  { llm := fun _ _ _ => Except.ok "summary",
    tavily := fun q _ _ _ =>
      if q = "Who leads AAPL?" then Except.error "boom" else Except.ok ⟨[]⟩,
    now := "2026-01-01T00:00:00" }

/-- A request-level error err carries the message of an outbound call that
failed on all three of its attempts: err.detail is the endpoint rendering
(strOfHTTPException) of the HTTPException the failing retry loop raised on
its final attempt — a search on one of the formatted queries, or a
completion call (on the resolver messages or on some section summarizer
messages) — and the final-attempt message m is in particular a suffix of
the detail. -/
def errorFromFinalAttempt (env : Env) (company : String)
    (err : HTTPException) : Prop :=
  ∃ m, (∃ pre, err.detail = pre ++ m) ∧
    ((∃ q, q ∈ formattedQueries company researcher.research_sections ∧
        (∃ m0, env.tavily q "basic" 10 0 = Except.error m0) ∧
        (∃ m1, env.tavily q "basic" 10 1 = Except.error m1) ∧
        env.tavily q "basic" 10 2 = Except.error m ∧
        err.detail = strOfHTTPException ⟨500, "Tavily API error: " ++ m⟩) ∨
     (∃ msgs, (msgs = CompanyResearch.resolveMessages company ∨
          ∃ cc s, s ∈ researcher.research_sections ∧
            msgs = CompanyResearch.extractMessages cc s.name) ∧
        (∃ m0, env.llm msgs researcher.model 0 = Except.error m0) ∧
        (∃ m1, env.llm msgs researcher.model 1 = Except.error m1) ∧
        env.llm msgs researcher.model 2 = Except.error m ∧
        err.detail = strOfHTTPException ⟨500, "OpenAI API error: " ++ m⟩))

/-- A successful run returned the complete profile — all ten section keys,
never a proper subset of section summaries — and no outbound call
ultimately failed: every formatted query of every section was searched
successfully within three attempts, and every stored section summary came
from a summarization call that succeeded within three attempts; so no
section reached a failing final retry. -/
def completeProfileNoUltimateFailure (env : Env) (company : String)
    (p : CompanyProfile) : Prop :=
  p.sections.map Prod.fst =
    ["founded_year", "managing_director", "introduction", "company_overview",
     "business_segments", "leadership", "financial_performance",
     "business_segment_deep_dive", "recent_developments", "industry_outlook"] ∧
  (∀ q ∈ formattedQueries company researcher.research_sections,
    ∃ a, a < 3 ∧ ∃ r, env.tavily q "basic" 10 a = Except.ok r) ∧
  (∀ pr ∈ p.sections, ∃ cc, ∃ a, a < 3 ∧
    env.llm (CompanyResearch.extractMessages cc pr.1) researcher.model a =
      Except.ok pr.2)

/-- Environment of the C6 counterexample: for company "ACME", only the
second query of the introduction section has results. -/
def cexEnv : Env :=
  { llm := fun _ _ _ => Except.ok "summary",
    tavily := fun q _ _ _ =>
      Except.ok (if q = "What are ACME's key achievements?"
        then ⟨[{ title := "T", content := "C" }]⟩ else ⟨[]⟩),
    now := "2026-01-01T00:00:00" }

/-! ## Basic string and formatting lemmas -/

theorem String_length_mk (l : List Char) : (String.mk l).length = l.length := rfl

theorem String_data_append (a b : String) : (a ++ b).data = a.data ++ b.data := rfl

theorem String_empty_append (s : String) : "" ++ s = s := rfl

theorem String_append_assoc (a b c : String) : a ++ b ++ c = a ++ (b ++ c) := by
  apply congrArg String.mk
  exact List.append_assoc a.data b.data c.data

theorem String_eq_empty_of_data_eq_nil (s : String) (h : s.data = []) : s = "" := by
  cases s with
  | mk data => cases h; rfl

theorem String_append_ne_empty_left (a b : String) (h : a ≠ "") : a ++ b ≠ "" := by
  intro hab
  apply h
  apply String_eq_empty_of_data_eq_nil
  have : (a ++ b).data = [] := by rw [hab]
  rw [String_data_append] at this
  exact (List.append_eq_nil.mp this).1

/-- Substituting a longer company string never shortens the formatted query:
the formatted query with the empty company is a lower bound. -/
theorem formatChars_length_mono (company : List Char) (l : List Char) :
    (formatChars [] l).length ≤ (formatChars company l).length := by
  induction l using formatChars.induct company with
  | case1 => simp [formatChars]
  | case2 rest ih =>
    simp only [formatChars, List.length_append, List.nil_append]
    omega
  | case3 c rest h ih =>
    rw [formatChars, formatChars]
    · simp only [List.length_cons]; omega
    · exact h
    · exact h

theorem five_le_formatQuery_length (q c : String)
    (h : 5 ≤ (formatQuery q "").length) : 5 ≤ (formatQuery q c).length := by
  have hm := formatChars_length_mono c.data q.data
  simp only [formatQuery, String_length_mk] at h ⊢
  exact le_trans h hm

/-- Every hardcoded template already has at least 5 characters of fixed text
around the placeholder. -/
theorem templates_min_length :
    ∀ q ∈ sectionsQueries researcher.research_sections,
      5 ≤ (formatQuery q "").length := by decide

/-- Hence no formatted query built from the hardcoded templates is ever
shorter than 5 characters, whatever the company input. -/
theorem templates_formatted_not_short (c : String) :
    ∀ q ∈ sectionsQueries researcher.research_sections,
      ¬ (formatQuery q c).length < 5 := by
  intro q hq
  have := five_le_formatQuery_length q c (templates_min_length q hq)
  omega

/-! ## Shape of the retry-loop traces -/

theorem searchLoop_events_shape (oracle : Nat → Except String SearchResponse)
    (query search_depth : String) (mr : Nat) :
    ∀ (l : List Nat) (delay : Nat),
      ∀ ev ∈ (TavilyResearch.searchLoop oracle query search_depth mr l delay).2,
        ev = Event.tavilyAPICall query search_depth 10 ∨ ∃ s, ev = Event.sleep s := by
  intro l
  induction l with
  | nil => intro delay ev hev; simp [TavilyResearch.searchLoop] at hev
  | cons attempt rest ih =>
    intro delay ev hev
    rw [TavilyResearch.searchLoop] at hev
    cases h : oracle attempt with
    | ok r => simp only [h] at hev; simp at hev; left; exact hev
    | error e =>
      simp only [h] at hev
      by_cases hlast : (attempt == mr - 1) = true
      · rw [if_pos hlast] at hev; simp at hev; left; exact hev
      · rw [if_neg hlast] at hev
        simp only [List.mem_cons] at hev
        rcases hev with h1 | h1 | h1
        · left; exact h1
        · right; exact ⟨delay, h1⟩
        · exact ih (delay * 2) ev h1

theorem generate_responseLoop_events_shape (oracle : Nat → Except String String)
    (messages : List Message) (model : String) (mr : Nat) :
    ∀ (l : List Nat) (delay : Nat),
      ∀ ev ∈ (OpenAIClient.generate_responseLoop oracle messages model mr l delay).2,
        ev = Event.openaiAPICall messages model ∨ ∃ s, ev = Event.sleep s := by
  intro l
  induction l with
  | nil => intro delay ev hev; simp [OpenAIClient.generate_responseLoop] at hev
  | cons attempt rest ih =>
    intro delay ev hev
    rw [OpenAIClient.generate_responseLoop] at hev
    cases h : oracle attempt with
    | ok r => simp only [h] at hev; simp at hev; left; exact hev
    | error e =>
      simp only [h] at hev
      by_cases hlast : (attempt == mr - 1) = true
      · rw [if_pos hlast] at hev; simp at hev; left; exact hev
      · rw [if_neg hlast] at hev
        simp only [List.mem_cons] at hev
        rcases hev with h1 | h1 | h1
        · left; exact h1
        · right; exact ⟨delay, h1⟩
        · exact ih (delay * 2) ev h1

/-! ## Traces of the two client functions -/

theorem filterMap_eq_nil_of_none {α : Type} (f : Event → Option α) (evs : List Event)
    (h : ∀ ev ∈ evs, f ev = none) : evs.filterMap f = [] :=
  List.filterMap_eq_nil_iff.mpr h

theorem search_trace_searchCalls (env : Env) (q d : String) :
    searchCallQueries (TavilyResearch.search env q d).2 = [q] := by
  rw [TavilyResearch.search]
  simp only [searchCallQueries, List.filterMap_cons]
  rw [filterMap_eq_nil_of_none]
  intro ev hev
  rcases searchLoop_events_shape (fun a => env.tavily q d 10 a) q d 3 (List.range 3) 2
    ev hev with rfl | ⟨s, rfl⟩ <;> rfl

theorem search_trace_llmCalls (env : Env) (q d : String) :
    llmCalls (TavilyResearch.search env q d).2 = [] := by
  rw [TavilyResearch.search]
  simp only [llmCalls, List.filterMap_cons]
  rw [filterMap_eq_nil_of_none]
  intro ev hev
  rcases searchLoop_events_shape (fun a => env.tavily q d 10 a) q d 3 (List.range 3) 2
    ev hev with rfl | ⟨s, rfl⟩ <;> rfl

theorem search_trace_tavilyAPICalls (env : Env) (q d : String) :
    ∀ x ∈ tavilyAPICalls (TavilyResearch.search env q d).2, x = (q, d, 10) := by
  intro x hx
  rw [TavilyResearch.search] at hx
  simp only [tavilyAPICalls, List.filterMap_cons] at hx
  rcases List.mem_filterMap.mp hx with ⟨ev, hev, hfx⟩
  rcases searchLoop_events_shape (fun a => env.tavily q d 10 a) q d 3 (List.range 3) 2
    ev hev with rfl | ⟨s, rfl⟩
  · exact (Option.some.inj hfx).symm
  · exact Option.noConfusion hfx

theorem generate_trace_llmCalls (env : Env) (messages : List Message) (model : String) :
    llmCalls (OpenAIClient.generate_response env messages model).2 = [messages] := by
  rw [OpenAIClient.generate_response]
  simp only [llmCalls, List.filterMap_cons]
  rw [filterMap_eq_nil_of_none]
  intro ev hev
  rcases generate_responseLoop_events_shape (env.llm messages model) messages model 3
    (List.range 3) 1 ev hev with rfl | ⟨s, rfl⟩ <;> rfl

theorem generate_trace_searchCalls (env : Env) (messages : List Message) (model : String) :
    searchCallQueries (OpenAIClient.generate_response env messages model).2 = [] := by
  rw [OpenAIClient.generate_response]
  simp only [searchCallQueries, List.filterMap_cons]
  rw [filterMap_eq_nil_of_none]
  intro ev hev
  rcases generate_responseLoop_events_shape (env.llm messages model) messages model 3
    (List.range 3) 1 ev hev with rfl | ⟨s, rfl⟩ <;> rfl

theorem generate_trace_tavilyAPICalls (env : Env) (messages : List Message) (model : String) :
    tavilyAPICalls (OpenAIClient.generate_response env messages model).2 = [] := by
  rw [OpenAIClient.generate_response]
  simp only [tavilyAPICalls, List.filterMap_cons]
  rw [filterMap_eq_nil_of_none]
  intro ev hev
  rcases generate_responseLoop_events_shape (env.llm messages model) messages model 3
    (List.range 3) 1 ev hev with rfl | ⟨s, rfl⟩ <;> rfl

/-! ## Traces and results of the query loop -/
theorem llmCalls_append (a b : List Event) :
    llmCalls (a ++ b) = llmCalls a ++ llmCalls b := by
  simp [llmCalls, List.filterMap_append]

theorem searchCallQueries_append (a b : List Event) :
    searchCallQueries (a ++ b) = searchCallQueries a ++ searchCallQueries b := by
  simp [searchCallQueries, List.filterMap_append]

theorem tavilyAPICalls_append (a b : List Event) :
    tavilyAPICalls (a ++ b) = tavilyAPICalls a ++ tavilyAPICalls b := by
  simp [tavilyAPICalls, List.filterMap_append]

theorem processQueries_llmCalls (env : Env) (company : String) :
    ∀ (l : List String) (acc : String),
      llmCalls (CompanyResearch.processQueries env company l acc).2 = [] := by
  intro l
  induction l with
  | nil => intro acc; simp [CompanyResearch.processQueries, llmCalls]
  | cons query rest ih =>
    intro acc
    rw [CompanyResearch.processQueries]
    by_cases hs : (formatQuery query company).length < 5
    · rw [if_pos hs]; exact ih acc
    · rw [if_neg hs]
      rcases hsr : TavilyResearch.search env (formatQuery query company) "basic" with ⟨sr, sevs⟩
      have hnil := search_trace_llmCalls env (formatQuery query company) "basic"
      rw [hsr] at hnil
      cases sr with
      | error e => simpa using hnil
      | ok search_results =>
        simp only [llmCalls_append]
        rw [show llmCalls sevs = [] from hnil]
        simp [ih]

theorem processQueries_searchCalls_ok (env : Env) (company : String) :
    ∀ (l : List String) (acc res : String) (evs : List Event),
      CompanyResearch.processQueries env company l acc = (Except.ok res, evs) →
      searchCallQueries evs =
        (l.map (fun q => formatQuery q company)).filter
          (fun q => !decide (q.length < 5)) := by
  intro l
  induction l with
  | nil =>
    intro acc res evs h
    simp [CompanyResearch.processQueries] at h
    rcases h with ⟨h1, h2⟩
    subst h2
    rfl
  | cons query rest ih =>
    intro acc res evs h
    rw [CompanyResearch.processQueries] at h
    by_cases hs : (formatQuery query company).length < 5
    · rw [if_pos hs] at h
      have hb : (!decide ((formatQuery query company).length < 5)) = false := by
        rw [decide_eq_true hs]; rfl
      rw [ih acc res evs h, List.map_cons, List.filter_cons, hb]
      rfl
    · rw [if_neg hs] at h
      rcases hsr : TavilyResearch.search env (formatQuery query company) "basic" with ⟨sr, sevs⟩
      rw [hsr] at h
      cases sr with
      | error e => exact Except.noConfusion (congrArg Prod.fst h)
      | ok search_results =>
        rcases hrec : CompanyResearch.processQueries env company rest
            (CompanyResearch.combineStep acc
              (CompanyResearch.query_contentOf search_results)) with ⟨rr, revs⟩
        simp only [hrec, Prod.mk.injEq] at h
        obtain ⟨hrr, hev⟩ := h
        rw [← hev, searchCallQueries_append]
        have h1 : searchCallQueries sevs = [formatQuery query company] := by
          have := search_trace_searchCalls env (formatQuery query company) "basic"
          rw [hsr] at this; exact this
        have h2 := ih _ res revs (by rw [hrec, hrr])
        have hb : (!decide ((formatQuery query company).length < 5)) = true := by
          rw [decide_eq_false hs]; rfl
        rw [h1, h2, List.map_cons, List.filter_cons, hb]
        rfl



theorem processQueries_searchCalls_not_short (env : Env) (company : String) :
    ∀ (l : List String) (acc : String),
      ∀ q ∈ searchCallQueries (CompanyResearch.processQueries env company l acc).2,
        ¬ q.length < 5 := by
  intro l
  induction l with
  | nil => intro acc q hq; simp [CompanyResearch.processQueries, searchCallQueries] at hq
  | cons query rest ih =>
    intro acc q hq
    rw [CompanyResearch.processQueries] at hq
    by_cases hs : (formatQuery query company).length < 5
    · rw [if_pos hs] at hq; exact ih acc q hq
    · rw [if_neg hs] at hq
      rcases hsr : TavilyResearch.search env (formatQuery query company) "basic" with ⟨sr, sevs⟩
      have h1 : searchCallQueries sevs = [formatQuery query company] := by
        have := search_trace_searchCalls env (formatQuery query company) "basic"
        rw [hsr] at this; exact this
      rw [hsr] at hq
      cases sr with
      | error e =>
        simp only [] at hq
        rw [h1] at hq
        simp at hq
        subst hq; exact hs
      | ok search_results =>
        simp only [searchCallQueries_append, h1] at hq
        rcases List.mem_append.mp hq with h2 | h2
        · rcases List.mem_singleton.mp h2 with rfl; exact hs
        · exact ih _ q h2

theorem processQueries_tavilyAPICalls (env : Env) (company : String) :
    ∀ (l : List String) (acc : String),
      ∀ x ∈ tavilyAPICalls (CompanyResearch.processQueries env company l acc).2,
        x.2.1 = "basic" ∧ x.2.2 = 10 := by
  intro l
  induction l with
  | nil => intro acc x hx; simp [CompanyResearch.processQueries, tavilyAPICalls] at hx
  | cons query rest ih =>
    intro acc x hx
    rw [CompanyResearch.processQueries] at hx
    by_cases hs : (formatQuery query company).length < 5
    · rw [if_pos hs] at hx; exact ih acc x hx
    · rw [if_neg hs] at hx
      rcases hsr : TavilyResearch.search env (formatQuery query company) "basic" with ⟨sr, sevs⟩
      have h1 : ∀ y ∈ tavilyAPICalls sevs, y = (formatQuery query company, "basic", 10) := by
        have := search_trace_tavilyAPICalls env (formatQuery query company) "basic"
        rw [hsr] at this; exact this
      rw [hsr] at hx
      cases sr with
      | error e =>
        simp only [] at hx
        have := h1 x hx
        subst this; exact ⟨rfl, rfl⟩
      | ok search_results =>
        simp only [tavilyAPICalls_append] at hx
        rcases List.mem_append.mp hx with h2 | h2
        · have := h1 x h2; subst this; exact ⟨rfl, rfl⟩
        · exact ih _ x h2

theorem search_ok_of_tavily_ok (env : Env) (q d : String) (tf : String → SearchResponse)
    (hT : ∀ a, env.tavily q d 10 a = Except.ok (tf q)) :
    (TavilyResearch.search env q d).1 = Except.ok (tf q) := by
  rw [TavilyResearch.search]
  have hr : List.range 3 = [0, 1, 2] := rfl
  rw [hr, TavilyResearch.searchLoop]
  simp [hT 0]

theorem searchResponseFor_of_tavily_ok (env : Env) (q : String)
    (tf : String → SearchResponse)
    (hT : ∀ a, env.tavily q "basic" 10 a = Except.ok (tf q)) :
    searchResponseFor env q = tf q := by
  rw [searchResponseFor, search_ok_of_tavily_ok env q "basic" tf hT]

theorem processQueries_ok_of_tavily_ok (env : Env) (company : String)
    (tf : String → SearchResponse)
    (hT : ∀ q d mr a, env.tavily q d mr a = Except.ok (tf q)) :
    ∀ (l : List String) (acc : String),
      (CompanyResearch.processQueries env company l acc).1 =
        Except.ok (foldQueries env company l acc) := by
  intro l
  induction l with
  | nil => intro acc; rfl
  | cons query rest ih =>
    intro acc
    rw [CompanyResearch.processQueries, foldQueries]
    by_cases hs : (formatQuery query company).length < 5
    · rw [if_pos hs, if_pos hs]; exact ih acc
    · rw [if_neg hs, if_neg hs]
      rcases hsr : TavilyResearch.search env (formatQuery query company) "basic" with ⟨sr, sevs⟩
      have hok : sr = Except.ok (tf (formatQuery query company)) := by
        have := search_ok_of_tavily_ok env (formatQuery query company) "basic" tf
          (fun a => hT (formatQuery query company) "basic" 10 a)
        rw [hsr] at this; exact this
      subst hok
      simp only []
      rw [searchResponseFor_of_tavily_ok env (formatQuery query company) tf
        (fun a => hT (formatQuery query company) "basic" 10 a)]
      exact ih _

/-! ## Traces and results of the section loop and the endpoint -/
theorem generate_ok_of_llm_ok (env : Env) (messages : List Message) (model : String)
    (out : String)
    (hL : ∀ a, env.llm messages model a = Except.ok out) :
    (OpenAIClient.generate_response env messages model).1 = Except.ok out := by
  rw [OpenAIClient.generate_response]
  have hr : List.range 3 = [0, 1, 2] := rfl
  rw [hr, OpenAIClient.generate_responseLoop]
  simp [hL 0]

theorem processSection_char (env : Env) (mdl company : String) (s : ResearchSection)
    (tf : String → SearchResponse) (lf : List Message → String)
    (hT : ∀ q d mr a, env.tavily q d mr a = Except.ok (tf q))
    (hL : ∀ msgs m a, env.llm msgs m a = Except.ok (lf msgs)) :
    (CompanyResearch.processSection env mdl company s).1 =
      Except.ok (s.name, lf (CompanyResearch.extractMessages
        (codeCombinedContent env company s) s.name)) ∧
    llmCalls (CompanyResearch.processSection env mdl company s).2 =
      [CompanyResearch.extractMessages (codeCombinedContent env company s) s.name] := by
  rw [CompanyResearch.processSection]
  rcases hpq : CompanyResearch.processQueries env company (sectionQueries s) "" with ⟨pr, pevs⟩
  have hpr : pr = Except.ok (codeCombinedContent env company s) := by
    have := processQueries_ok_of_tavily_ok env company tf hT (sectionQueries s) ""
    rw [hpq] at this; exact this
  subst hpr
  have hpnil : llmCalls pevs = [] := by
    have := processQueries_llmCalls env company (sectionQueries s) ""
    rw [hpq] at this; exact this
  rcases hex : CompanyResearch.extract_section_info env mdl
      (codeCombinedContent env company s) s.name with ⟨er, eevs⟩
  have her : er = Except.ok (lf (CompanyResearch.extractMessages
      (codeCombinedContent env company s) s.name)) := by
    have := generate_ok_of_llm_ok env (CompanyResearch.extractMessages
      (codeCombinedContent env company s) s.name) mdl
      (lf (CompanyResearch.extractMessages (codeCombinedContent env company s) s.name))
      (fun a => hL _ mdl a)
    rw [CompanyResearch.extract_section_info] at hex
    rw [hex] at this; exact this
  subst her
  have henil : llmCalls eevs = [CompanyResearch.extractMessages
      (codeCombinedContent env company s) s.name] := by
    have := generate_trace_llmCalls env (CompanyResearch.extractMessages
      (codeCombinedContent env company s) s.name) mdl
    rw [CompanyResearch.extract_section_info] at hex
    rw [hex] at this; exact this
  simp only [hpq, hex]
  constructor
  · trivial
  · have hsl : llmCalls [Event.sleep 1] = [] := rfl
    simp only [llmCalls_append, hpnil, henil, hsl, List.nil_append, List.append_nil]



theorem processSection_ok_parts (env : Env) (mdl company : String) (s : ResearchSection)
    (entry : String × String) (evs : List Event)
    (h : CompanyResearch.processSection env mdl company s = (Except.ok entry, evs)) :
    entry.1 = s.name ∧
    (∃ cc, (CompanyResearch.extract_section_info env mdl cc s.name).1 =
      Except.ok entry.2) ∧
    searchCallQueries evs =
      (List.map (fun q => formatQuery q company) (sectionQueries s)).filter
        (fun q => !decide (q.length < 5)) ∧
    (llmCalls evs).length = 1 := by
  rw [CompanyResearch.processSection] at h
  rcases hpq : CompanyResearch.processQueries env company (sectionQueries s) "" with ⟨pr, pevs⟩
  rw [hpq] at h
  cases pr with
  | error e => exact Except.noConfusion (congrArg Prod.fst h)
  | ok cc =>
    rcases hex : CompanyResearch.extract_section_info env mdl cc s.name with ⟨er, eevs⟩
    simp only [hex] at h
    cases er with
    | error e2 => exact Except.noConfusion (congrArg Prod.fst h)
    | ok info =>
      simp only [Prod.mk.injEq] at h
      obtain ⟨hentry, hevs⟩ := h
      have hentry2 : entry = (s.name, info) := by
        have := Except.ok.inj hentry
        exact this.symm
      subst hentry2
      subst hevs
      refine ⟨rfl, ⟨cc, by rw [hex]⟩, ?_, ?_⟩
      · have h1 := processQueries_searchCalls_ok env company (sectionQueries s) "" cc pevs hpq
        have h2 : searchCallQueries eevs = [] := by
          have := generate_trace_searchCalls env
            (CompanyResearch.extractMessages cc s.name) mdl
          rw [CompanyResearch.extract_section_info] at hex
          rw [hex] at this; exact this
        have h3 : searchCallQueries [Event.sleep 1] = [] := rfl
        simp only [searchCallQueries_append, h1, h2, h3, List.append_nil]
      · have h1 : llmCalls pevs = [] := by
          have := processQueries_llmCalls env company (sectionQueries s) ""
          rw [hpq] at this; exact this
        have h2 : llmCalls eevs = [CompanyResearch.extractMessages cc s.name] := by
          have := generate_trace_llmCalls env
            (CompanyResearch.extractMessages cc s.name) mdl
          rw [CompanyResearch.extract_section_info] at hex
          rw [hex] at this; exact this
        have h3 : llmCalls [Event.sleep 1] = [] := rfl
        simp only [llmCalls_append, h1, h2, h3, List.append_nil, List.nil_append,
          List.length_singleton]



theorem processSection_searchCalls_not_short (env : Env) (mdl company : String)
    (s : ResearchSection) :
    ∀ q ∈ searchCallQueries (CompanyResearch.processSection env mdl company s).2,
      ¬ q.length < 5 := by
  intro q hq
  rw [CompanyResearch.processSection] at hq
  rcases hpq : CompanyResearch.processQueries env company (sectionQueries s) "" with ⟨pr, pevs⟩
  have hshort := processQueries_searchCalls_not_short env company (sectionQueries s) ""
  rw [hpq] at hq hshort
  cases pr with
  | error e => exact hshort q hq
  | ok cc =>
    rcases hex : CompanyResearch.extract_section_info env mdl cc s.name with ⟨er, eevs⟩
    have h2 : searchCallQueries eevs = [] := by
      have := generate_trace_searchCalls env (CompanyResearch.extractMessages cc s.name) mdl
      rw [CompanyResearch.extract_section_info] at hex
      rw [hex] at this; exact this
    simp only [hex] at hq
    cases er with
    | error e2 =>
      simp only [searchCallQueries_append, h2, List.append_nil] at hq
      exact hshort q hq
    | ok info =>
      have h3 : searchCallQueries [Event.sleep 1] = [] := rfl
      simp only [searchCallQueries_append, h2, h3, List.append_nil] at hq
      exact hshort q hq

theorem processSection_tavilyAPICalls (env : Env) (mdl company : String)
    (s : ResearchSection) :
    ∀ x ∈ tavilyAPICalls (CompanyResearch.processSection env mdl company s).2,
      x.2.1 = "basic" ∧ x.2.2 = 10 := by
  intro x hx
  rw [CompanyResearch.processSection] at hx
  rcases hpq : CompanyResearch.processQueries env company (sectionQueries s) "" with ⟨pr, pevs⟩
  have hapi := processQueries_tavilyAPICalls env company (sectionQueries s) ""
  rw [hpq] at hx hapi
  cases pr with
  | error e => exact hapi x hx
  | ok cc =>
    rcases hex : CompanyResearch.extract_section_info env mdl cc s.name with ⟨er, eevs⟩
    have h2 : tavilyAPICalls eevs = [] := by
      have := generate_trace_tavilyAPICalls env (CompanyResearch.extractMessages cc s.name) mdl
      rw [CompanyResearch.extract_section_info] at hex
      rw [hex] at this; exact this
    simp only [hex] at hx
    cases er with
    | error e2 =>
      simp only [tavilyAPICalls_append, h2, List.append_nil] at hx
      exact hapi x hx
    | ok info =>
      have h3 : tavilyAPICalls [Event.sleep 1] = [] := rfl
      simp only [tavilyAPICalls_append, h2, h3, List.append_nil] at hx
      exact hapi x hx



theorem processSections_ok_parts (env : Env) (mdl company : String) :
    ∀ (sections : List ResearchSection) (entries : List (String × String))
      (evs : List Event),
      CompanyResearch.processSections env mdl company sections =
        (Except.ok entries, evs) →
      entries.map Prod.fst = sections.map ResearchSection.name ∧
      (∀ p ∈ entries, ∃ cc,
        (CompanyResearch.extract_section_info env mdl cc p.1).1 = Except.ok p.2) ∧
      searchCallQueries evs =
        (formattedQueries company sections).filter (fun q => !decide (q.length < 5)) ∧
      (llmCalls evs).length = sections.length := by
  intro sections
  induction sections with
  | nil =>
    intro entries evs h
    simp [CompanyResearch.processSections] at h
    obtain ⟨h1, h2⟩ := h
    subst h2
    subst h1
    refine ⟨rfl, by simp, rfl, rfl⟩
  | cons s rest ih =>
    intro entries evs h
    rw [CompanyResearch.processSections] at h
    rcases hps : CompanyResearch.processSection env mdl company s with ⟨sr, sevs⟩
    rw [hps] at h
    cases sr with
    | error e => exact Except.noConfusion (congrArg Prod.fst h)
    | ok entry =>
      rcases hrec : CompanyResearch.processSections env mdl company rest with ⟨rr, revs⟩
      simp only [hrec] at h
      cases rr with
      | error e => exact Except.noConfusion (congrArg Prod.fst h)
      | ok entries2 =>
        simp only [Prod.mk.injEq] at h
        obtain ⟨he, hv⟩ := h
        have hent : entries = entry :: entries2 := (Except.ok.inj he).symm
        subst hent
        subst hv
        obtain ⟨hn, hex, hsq, hllm⟩ := processSection_ok_parts env mdl company s entry sevs hps
        obtain ⟨ihn, ihex, ihsq, ihllm⟩ := ih entries2 revs (by rw [hrec])
        refine ⟨?_, ?_, ?_, ?_⟩
        · simp only [List.map_cons, hn, ihn]
        · intro p hp
          rcases List.mem_cons.mp hp with rfl | hp2
          · obtain ⟨cc, hcc⟩ := hex
            exact ⟨cc, by rw [hn]; exact hcc⟩
          · exact ihex p hp2
        · have hfq : formattedQueries company (s :: rest) =
              List.map (fun q => formatQuery q company) (sectionQueries s) ++
                formattedQueries company rest := by
            simp [formattedQueries, sectionsQueries, List.map_append]
          rw [searchCallQueries_append, hsq, ihsq, hfq, List.filter_append]
        · rw [llmCalls_append, List.length_append, hllm, ihllm, List.length_cons]
          omega



theorem processSections_searchCalls_not_short (env : Env) (mdl company : String) :
    ∀ (sections : List ResearchSection),
      ∀ q ∈ searchCallQueries
        (CompanyResearch.processSections env mdl company sections).2,
        ¬ q.length < 5 := by
  intro sections
  induction sections with
  | nil => intro q hq; simp [CompanyResearch.processSections, searchCallQueries] at hq
  | cons s rest ih =>
    intro q hq
    rw [CompanyResearch.processSections] at hq
    rcases hps : CompanyResearch.processSection env mdl company s with ⟨sr, sevs⟩
    have hs1 := processSection_searchCalls_not_short env mdl company s
    rw [hps] at hq hs1
    cases sr with
    | error e => exact hs1 q hq
    | ok entry =>
      rcases hrec : CompanyResearch.processSections env mdl company rest with ⟨rr, revs⟩
      have hs2 := ih
      rw [hrec] at hs2
      simp only [hrec] at hq
      cases rr with
      | error e =>
        simp only [searchCallQueries_append] at hq
        rcases List.mem_append.mp hq with h2 | h2
        · exact hs1 q h2
        · exact hs2 q h2
      | ok entries2 =>
        simp only [searchCallQueries_append] at hq
        rcases List.mem_append.mp hq with h2 | h2
        · exact hs1 q h2
        · exact hs2 q h2

theorem processSections_tavilyAPICalls (env : Env) (mdl company : String) :
    ∀ (sections : List ResearchSection),
      ∀ x ∈ tavilyAPICalls
        (CompanyResearch.processSections env mdl company sections).2,
        x.2.1 = "basic" ∧ x.2.2 = 10 := by
  intro sections
  induction sections with
  | nil => intro x hx; simp [CompanyResearch.processSections, tavilyAPICalls] at hx
  | cons s rest ih =>
    intro x hx
    rw [CompanyResearch.processSections] at hx
    rcases hps : CompanyResearch.processSection env mdl company s with ⟨sr, sevs⟩
    have hs1 := processSection_tavilyAPICalls env mdl company s
    rw [hps] at hx hs1
    cases sr with
    | error e => exact hs1 x hx
    | ok entry =>
      rcases hrec : CompanyResearch.processSections env mdl company rest with ⟨rr, revs⟩
      have hs2 := ih
      rw [hrec] at hs2
      simp only [hrec] at hx
      cases rr with
      | error e =>
        simp only [tavilyAPICalls_append] at hx
        rcases List.mem_append.mp hx with h2 | h2
        · exact hs1 x h2
        · exact hs2 x h2
      | ok entries2 =>
        simp only [tavilyAPICalls_append] at hx
        rcases List.mem_append.mp hx with h2 | h2
        · exact hs1 x h2
        · exact hs2 x h2



theorem research_company_ok_parts (env : Env) (self : Researcher) (company : String)
    (p : CompanyProfile) (evs : List Event)
    (h : CompanyResearch.research_company env self company = (Except.ok p, evs)) :
    p.input = company ∧ p.timestamp = env.now ∧
    p.sections.map Prod.fst = self.research_sections.map ResearchSection.name ∧
    (∀ pr ∈ p.sections, ∃ cc,
      (CompanyResearch.extract_section_info env self.model cc pr.1).1 =
        Except.ok pr.2) ∧
    searchCallQueries evs =
      (formattedQueries company self.research_sections).filter
        (fun q => !decide (q.length < 5)) ∧
    (llmCalls evs).length = self.research_sections.length + 1 := by
  rw [CompanyResearch.research_company] at h
  rcases hres : CompanyResearch.resolve_company_info env self.model company with ⟨rr, revs⟩
  have hrnil : searchCallQueries revs = [] := by
    have := generate_trace_searchCalls env (CompanyResearch.resolveMessages company) self.model
    rw [CompanyResearch.resolve_company_info] at hres
    rw [hres] at this; exact this
  have hrllm : llmCalls revs = [CompanyResearch.resolveMessages company] := by
    have := generate_trace_llmCalls env (CompanyResearch.resolveMessages company) self.model
    rw [CompanyResearch.resolve_company_info] at hres
    rw [hres] at this; exact this
  rw [hres] at h
  cases rr with
  | error e => exact Except.noConfusion (congrArg Prod.fst h)
  | ok resolved =>
    rcases hsec : CompanyResearch.processSections env self.model company
        self.research_sections with ⟨sr, sevs⟩
    simp only [hsec] at h
    cases sr with
    | error e => exact Except.noConfusion (congrArg Prod.fst h)
    | ok entries =>
      simp only [Prod.mk.injEq] at h
      obtain ⟨hp, hv⟩ := h
      have hp2 := (Except.ok.inj hp).symm
      subst hp2
      subst hv
      obtain ⟨h1, h2, h3, h4⟩ :=
        processSections_ok_parts env self.model company self.research_sections
          entries sevs hsec
      refine ⟨rfl, rfl, h1, h2, ?_, ?_⟩
      · rw [searchCallQueries_append, hrnil, h3, List.nil_append]
      · rw [llmCalls_append, List.length_append, hrllm, h4, List.length_singleton]
        omega

theorem endpoint_ok (env : Env) (self : Researcher) (company : String)
    (p : CompanyProfile) (evs : List Event)
    (h : research_company_endpoint env self company = (Except.ok p, evs)) :
    CompanyResearch.research_company env self company = (Except.ok p, evs) := by
  rw [research_company_endpoint] at h
  rcases hrc : CompanyResearch.research_company env self company with ⟨rr, revs⟩
  rw [hrc] at h
  cases rr with
  | error e => exact Except.noConfusion (congrArg Prod.fst h)
  | ok p2 =>
    simp only [Prod.mk.injEq] at h
    obtain ⟨h1, h2⟩ := h
    rw [h1, h2]

theorem endpoint_trace (env : Env) (self : Researcher) (company : String) :
    (research_company_endpoint env self company).2 =
      (CompanyResearch.research_company env self company).2 := by
  rw [research_company_endpoint]
  rcases hrc : CompanyResearch.research_company env self company with ⟨rr, revs⟩
  cases rr <;> rfl

theorem research_company_tavilyAPICalls (env : Env) (self : Researcher)
    (company : String) :
    ∀ x ∈ tavilyAPICalls (CompanyResearch.research_company env self company).2,
      x.2.1 = "basic" ∧ x.2.2 = 10 := by
  intro x hx
  rw [CompanyResearch.research_company] at hx
  rcases hres : CompanyResearch.resolve_company_info env self.model company with ⟨rr, revs⟩
  have hrnil : tavilyAPICalls revs = [] := by
    have := generate_trace_tavilyAPICalls env (CompanyResearch.resolveMessages company)
      self.model
    rw [CompanyResearch.resolve_company_info] at hres
    rw [hres] at this; exact this
  rw [hres] at hx
  cases rr with
  | error e => rw [hrnil] at hx; simp at hx
  | ok resolved =>
    rcases hsec : CompanyResearch.processSections env self.model company
        self.research_sections with ⟨sr, sevs⟩
    have hsall := processSections_tavilyAPICalls env self.model company
      self.research_sections
    rw [hsec] at hsall
    simp only [hsec] at hx
    cases sr with
    | error e =>
      simp only [tavilyAPICalls_append, hrnil, List.nil_append] at hx
      exact hsall x hx
    | ok entries =>
      simp only [tavilyAPICalls_append, hrnil, List.nil_append] at hx
      exact hsall x hx

theorem research_company_searchCalls_not_short (env : Env) (self : Researcher)
    (company : String) :
    ∀ q ∈ searchCallQueries (CompanyResearch.research_company env self company).2,
      ¬ q.length < 5 := by
  intro q hq
  rw [CompanyResearch.research_company] at hq
  rcases hres : CompanyResearch.resolve_company_info env self.model company with ⟨rr, revs⟩
  have hrnil : searchCallQueries revs = [] := by
    have := generate_trace_searchCalls env (CompanyResearch.resolveMessages company)
      self.model
    rw [CompanyResearch.resolve_company_info] at hres
    rw [hres] at this; exact this
  rw [hres] at hq
  cases rr with
  | error e => rw [hrnil] at hq; simp at hq
  | ok resolved =>
    rcases hsec : CompanyResearch.processSections env self.model company
        self.research_sections with ⟨sr, sevs⟩
    have hsall := processSections_searchCalls_not_short env self.model company
      self.research_sections
    rw [hsec] at hsall
    simp only [hsec] at hq
    cases sr with
    | error e =>
      simp only [searchCallQueries_append, hrnil, List.nil_append] at hq
      exact hsall q hq
    | ok entries =>
      simp only [searchCallQueries_append, hrnil, List.nil_append] at hq
      exact hsall q hq

/-! ## The combined content of one section -/
theorem resultLine_ne_empty (r : SearchResult) :
    CompanyResearch.resultLine r ≠ "" := by
  rw [CompanyResearch.resultLine]
  apply String_append_ne_empty_left
  apply String_append_ne_empty_left
  apply String_append_ne_empty_left
  decide

theorem sepFold_ne_empty (sep : String) :
    ∀ (t : List String) (acc : String), acc ≠ "" →
      List.foldl (fun a y => a ++ sep ++ y) acc t ≠ "" := by
  intro t
  induction t with
  | nil => intro acc h; exact h
  | cons y ys ih =>
    intro acc h
    rw [List.foldl_cons]
    exact ih _ (String_append_ne_empty_left _ _ (String_append_ne_empty_left _ _ h))

theorem query_content_ne_empty (r : SearchResponse) (h : r.results ≠ []) :
    CompanyResearch.query_contentOf r ≠ "" := by
  rw [CompanyResearch.query_contentOf]
  rcases hr : r.results with _ | ⟨r0, rs⟩
  · exact absurd hr h
  · rw [List.map_cons, joinSep]
    exact sepFold_ne_empty "\n\n" (rs.map CompanyResearch.resultLine) _ (resultLine_ne_empty r0)

theorem combineStep_empty (b : String) : CompanyResearch.combineStep "" b = b := rfl

theorem combineStep_nonempty (a b : String) (h : a ≠ "") :
    CompanyResearch.combineStep a b = a ++ "\n\n" ++ b := by
  rw [CompanyResearch.combineStep, if_pos h, String_append_assoc]

theorem foldl_combineStep_eq_sepFold :
    ∀ (t : List String) (acc : String), acc ≠ "" →
      List.foldl CompanyResearch.combineStep acc t =
        List.foldl (fun a y => a ++ "\n\n" ++ y) acc t := by
  intro t
  induction t with
  | nil => intro acc h; rfl
  | cons y ys ih =>
    intro acc h
    rw [List.foldl_cons, List.foldl_cons, combineStep_nonempty acc y h]
    exact ih _ (String_append_ne_empty_left _ _ (String_append_ne_empty_left _ _ h))

theorem foldl_combineStep_eq_joinSep (blocks : List String)
    (h : ∀ b ∈ blocks, b ≠ "") :
    List.foldl CompanyResearch.combineStep "" blocks = joinSep "\n\n" blocks := by
  cases blocks with
  | nil => rfl
  | cons b t =>
    rw [List.foldl_cons, combineStep_empty, joinSep]
    exact foldl_combineStep_eq_sepFold t b (h b (List.mem_cons_self b t))

theorem foldQueries_eq_foldl (env : Env) (company : String) :
    ∀ (l : List String) (acc : String),
      foldQueries env company l acc =
        List.foldl CompanyResearch.combineStep acc
          (((l.map (fun q => formatQuery q company)).filter
            (fun q => !decide (q.length < 5))).map
              (fun q => CompanyResearch.query_contentOf (searchResponseFor env q))) := by
  intro l
  induction l with
  | nil => intro acc; rfl
  | cons query rest ih =>
    intro acc
    rw [foldQueries]
    by_cases hs : (formatQuery query company).length < 5
    · rw [if_pos hs]
      have hb : (!decide ((formatQuery query company).length < 5)) = false := by
        rw [decide_eq_true hs]; rfl
      rw [List.map_cons, List.filter_cons, hb]
      exact ih acc
    · rw [if_neg hs]
      have hb : (!decide ((formatQuery query company).length < 5)) = true := by
        rw [decide_eq_false hs]; rfl
      rw [List.map_cons, List.filter_cons, hb]
      simp only [List.map_cons, List.foldl_cons]
      exact ih _

theorem codeCombined_eq_specCombined (env : Env) (company : String)
    (s : ResearchSection)
    (h : ∀ q ∈ executedQueries company s, (searchResponseFor env q).results ≠ []) :
    codeCombinedContent env company s = specCombinedContent env company s := by
  rw [codeCombinedContent, specCombinedContent, foldQueries_eq_foldl]
  have : ∀ b ∈ (executedQueries company s).map
      (fun q => CompanyResearch.query_contentOf (searchResponseFor env q)), b ≠ "" := by
    intro b hb
    rcases List.mem_map.mp hb with ⟨q, hq, rfl⟩
    exact query_content_ne_empty _ (h q hq)
  rw [executedQueries] at this
  rw [foldl_combineStep_eq_joinSep _ this]
  rfl

/-! ## Failure scenarios -/
theorem foldQueries_empty_responses (env : Env) (company : String)
    (hT : ∀ q d mr a, env.tavily q d mr a = Except.ok ⟨[]⟩) :
    ∀ (l : List String), foldQueries env company l "" = "" := by
  intro l
  induction l with
  | nil => rfl
  | cons query rest ih =>
    rw [foldQueries]
    by_cases hs : (formatQuery query company).length < 5
    · rw [if_pos hs]; exact ih
    · rw [if_neg hs]
      have hresp : searchResponseFor env (formatQuery query company) = ⟨[]⟩ :=
        searchResponseFor_of_tavily_ok env _ (fun _ => ⟨[]⟩)
          (fun a => hT _ "basic" 10 a)
      rw [hresp]
      exact ih

theorem search_fails_all (env : Env) (q d m : String)
    (hT : ∀ a, env.tavily q d 10 a = Except.error m) :
    (TavilyResearch.search env q d).1 =
      Except.error ⟨500, "Tavily API error: " ++ m⟩ := by
  rw [TavilyResearch.search]
  have hr : List.range 3 = [0, 1, 2] := rfl
  rw [hr]
  simp [TavilyResearch.searchLoop, hT 0, hT 1, hT 2]

theorem generate_fails_all (env : Env) (messages : List Message) (model m : String)
    (hL : ∀ a, env.llm messages model a = Except.error m) :
    (OpenAIClient.generate_response env messages model).1 =
      Except.error ⟨500, "OpenAI API error: " ++ m⟩ := by
  rw [OpenAIClient.generate_response]
  have hr : List.range 3 = [0, 1, 2] := rfl
  rw [hr]
  simp [OpenAIClient.generate_responseLoop, hL 0, hL 1, hL 2]



theorem processQueries_head_fail (env : Env) (company m : String)
    (query : String) (rest : List String) (acc : String)
    (hT : ∀ a, env.tavily (formatQuery query company) "basic" 10 a = Except.error m)
    (hlen : ¬ (formatQuery query company).length < 5) :
    (CompanyResearch.processQueries env company (query :: rest) acc).1 =
      Except.error ⟨500, "Tavily API error: " ++ m⟩ := by
  rw [CompanyResearch.processQueries, if_neg hlen]
  rcases hsr : TavilyResearch.search env (formatQuery query company) "basic" with ⟨sr, sevs⟩
  have hserr : sr = Except.error ⟨500, "Tavily API error: " ++ m⟩ := by
    have := search_fails_all env (formatQuery query company) "basic" m hT
    rw [hsr] at this; exact this
  subst hserr
  rfl

theorem processSection_fail_of_queries_fail (env : Env) (mdl company : String)
    (s : ResearchSection) (e : HTTPException)
    (h : (CompanyResearch.processQueries env company (sectionQueries s) "").1 =
      Except.error e) :
    (CompanyResearch.processSection env mdl company s).1 = Except.error e := by
  rw [CompanyResearch.processSection]
  rcases hpq : CompanyResearch.processQueries env company (sectionQueries s) "" with ⟨pr, pevs⟩
  rw [hpq] at h
  have h2 : pr = Except.error e := h
  subst h2
  rfl

theorem processSection_fail_of_extract_fail (env : Env) (mdl company : String)
    (s : ResearchSection) (cc : String) (e : HTTPException)
    (hq : (CompanyResearch.processQueries env company (sectionQueries s) "").1 =
      Except.ok cc)
    (he : (CompanyResearch.extract_section_info env mdl cc s.name).1 =
      Except.error e) :
    (CompanyResearch.processSection env mdl company s).1 = Except.error e := by
  rw [CompanyResearch.processSection]
  rcases hpq : CompanyResearch.processQueries env company (sectionQueries s) "" with ⟨pr, pevs⟩
  rw [hpq] at hq
  have h2 : pr = Except.ok cc := hq
  subst h2
  rcases hex : CompanyResearch.extract_section_info env mdl cc s.name with ⟨er, eevs⟩
  rw [hex] at he
  have h3 : er = Except.error e := he
  subst h3
  simp only [hpq, hex]

theorem processSections_head_fail (env : Env) (mdl company : String)
    (s : ResearchSection) (rest : List ResearchSection) (e : HTTPException)
    (h : (CompanyResearch.processSection env mdl company s).1 = Except.error e) :
    (CompanyResearch.processSections env mdl company (s :: rest)).1 =
      Except.error e := by
  rw [CompanyResearch.processSections]
  rcases hps : CompanyResearch.processSection env mdl company s with ⟨sr, sevs⟩
  rw [hps] at h
  have h2 : sr = Except.error e := h
  subst h2
  rfl

theorem research_company_fail_of_sections_fail (env : Env) (self : Researcher)
    (company resolved : String) (e : HTTPException)
    (hres : (CompanyResearch.resolve_company_info env self.model company).1 =
      Except.ok resolved)
    (hsec : (CompanyResearch.processSections env self.model company
      self.research_sections).1 = Except.error e) :
    (CompanyResearch.research_company env self company).1 = Except.error e := by
  rw [CompanyResearch.research_company]
  rcases hr : CompanyResearch.resolve_company_info env self.model company with ⟨rr, revs⟩
  rw [hr] at hres
  have h2 : rr = Except.ok resolved := hres
  subst h2
  rcases hs : CompanyResearch.processSections env self.model company
      self.research_sections with ⟨sr, sevs⟩
  rw [hs] at hsec
  have h3 : sr = Except.error e := hsec
  subst h3
  rfl

theorem research_company_fail_of_resolve_fail (env : Env) (self : Researcher)
    (company : String) (e : HTTPException)
    (hres : (CompanyResearch.resolve_company_info env self.model company).1 =
      Except.error e) :
    (CompanyResearch.research_company env self company).1 = Except.error e := by
  rw [CompanyResearch.research_company]
  rcases hr : CompanyResearch.resolve_company_info env self.model company with ⟨rr, revs⟩
  rw [hr] at hres
  have h2 : rr = Except.error e := hres
  subst h2
  rfl

theorem endpoint_error_of_error (env : Env) (self : Researcher) (company : String)
    (e : HTTPException)
    (h : (CompanyResearch.research_company env self company).1 = Except.error e) :
    (research_company_endpoint env self company).1 =
      Except.error ⟨500, strOfHTTPException e⟩ := by
  rw [research_company_endpoint]
  rcases hr : CompanyResearch.research_company env self company with ⟨rr, revs⟩
  rw [hr] at h
  have h2 : rr = Except.error e := h
  subst h2
  rfl



theorem founded_year_template_not_short (company : String) :
    ¬ (formatQuery "When was {company} founded?" company).length < 5 :=
  templates_formatted_not_short company "When was {company} founded?" (by decide)

theorem processSections_researcher_head_fail (env : Env) (mdl company : String)
    (e : HTTPException)
    (h : (CompanyResearch.processSection env mdl company
      ⟨"founded_year", some "When was {company} founded?", none⟩).1 =
        Except.error e) :
    (CompanyResearch.processSections env mdl company
      researcher.research_sections).1 = Except.error e :=
  processSections_head_fail env mdl company
    ⟨"founded_year", some "When was {company} founded?", none⟩
    researcher.research_sections.tail e h

theorem endpoint_search_failure (env : Env) (company m : String)
    (lf : List Message → String)
    (hT : ∀ q d mr a, env.tavily q d mr a = Except.error m)
    (hL : ∀ msgs mdl a, env.llm msgs mdl a = Except.ok (lf msgs)) :
    (research_company_endpoint env researcher company).1 =
      Except.error ⟨500, strOfHTTPException ⟨500, "Tavily API error: " ++ m⟩⟩ := by
  apply endpoint_error_of_error
  apply research_company_fail_of_sections_fail env researcher company
    (lf (CompanyResearch.resolveMessages company))
  · exact generate_ok_of_llm_ok env _ researcher.model _ (fun a => hL _ _ a)
  · apply processSections_researcher_head_fail
    apply processSection_fail_of_queries_fail
    exact processQueries_head_fail env company m "When was {company} founded?" [] ""
      (fun a => hT _ _ _ a) (founded_year_template_not_short company)

theorem endpoint_summarize_failure (env : Env) (company m s0 : String)
    (tf : String → SearchResponse)
    (hT : ∀ q d mr a, env.tavily q d mr a = Except.ok (tf q))
    (hRes : ∀ a, env.llm (CompanyResearch.resolveMessages company)
      researcher.model a = Except.ok s0)
    (hSum : ∀ cc nm a, env.llm (CompanyResearch.extractMessages cc nm)
      researcher.model a = Except.error m) :
    (research_company_endpoint env researcher company).1 =
      Except.error ⟨500, strOfHTTPException ⟨500, "OpenAI API error: " ++ m⟩⟩ := by
  apply endpoint_error_of_error
  apply research_company_fail_of_sections_fail env researcher company s0
  · exact generate_ok_of_llm_ok env _ researcher.model s0 hRes
  · apply processSections_researcher_head_fail
    apply processSection_fail_of_extract_fail env researcher.model company
      ⟨"founded_year", some "When was {company} founded?", none⟩
      (codeCombinedContent env company
        ⟨"founded_year", some "When was {company} founded?", none⟩)
    · exact processQueries_ok_of_tavily_ok env company tf hT _ ""
    · rw [CompanyResearch.extract_section_info]
      exact generate_fails_all env _ researcher.model m (fun a => hSum _ _ a)

theorem extractMessages_ne_resolveMessages (cc nm input : String) :
    CompanyResearch.extractMessages cc nm ≠ CompanyResearch.resolveMessages input := by
  intro h
  have h2 := congrArg (fun l => ((l.headD ⟨"", ""⟩).content).data.head?) h
  have h3 : (some 'F' : Option Char) = some 'G' := h2
  exact absurd (Option.some.inj h3) (by decide)

theorem formatted_filter_eq_self (company : String) :
    (formattedQueries company researcher.research_sections).filter
      (fun q => !decide (q.length < 5)) =
    formattedQueries company researcher.research_sections := by
  apply List.filter_eq_self.mpr
  intro q hq
  rw [formattedQueries] at hq
  rcases List.mem_map.mp hq with ⟨t, ht, rfl⟩
  rw [decide_eq_false (templates_formatted_not_short company t ht)]
  rfl

theorem runRequests_eq_map (reqs : List (String × Env)) :
    runRequests researcher reqs =
      reqs.map (fun pr => research_company_endpoint pr.2 researcher pr.1) := by
  induction reqs with
  | nil => rfl
  | cons pr rest ih =>
    rcases pr with ⟨c, e⟩
    rw [runRequests]
    simp only [handleRequest]
    rw [ih]
    rfl

/-! ## Attempt-level analysis of call outcomes -/
theorem searchLoop_ok_attempt (oracle : Nat → Except String SearchResponse)
    (q d : String) (mr : Nat) :
    ∀ (l : List Nat) (delay : Nat) (r : SearchResponse),
      (TavilyResearch.searchLoop oracle q d mr l delay).1 = Except.ok r →
      ∃ a, a ∈ l ∧ oracle a = Except.ok r := by
  intro l
  induction l with
  | nil => intro delay r h; exact Except.noConfusion h
  | cons attempt rest ih =>
    intro delay r h
    rw [TavilyResearch.searchLoop] at h
    cases ho : oracle attempt with
    | ok r2 =>
      simp only [ho] at h
      have hr2 : r2 = r := Except.ok.inj h
      exact ⟨attempt, List.mem_cons_self _ _, by rw [ho, hr2]⟩
    | error e =>
      simp only [ho] at h
      by_cases hlast : (attempt == mr - 1) = true
      · rw [if_pos hlast] at h
        exact Except.noConfusion h
      · rw [if_neg hlast] at h
        obtain ⟨a, ha, hoa⟩ := ih (delay * 2) r h
        exact ⟨a, List.mem_cons_of_mem _ ha, hoa⟩

theorem search_ok_attempt (env : Env) (q d : String) (r : SearchResponse)
    (h : (TavilyResearch.search env q d).1 = Except.ok r) :
    ∃ a, a < 3 ∧ env.tavily q d 10 a = Except.ok r := by
  have h2 : (TavilyResearch.searchLoop (fun a => env.tavily q d 10 a) q d 3
      (List.range 3) 2).1 = Except.ok r := h
  obtain ⟨a, ha, hoa⟩ := searchLoop_ok_attempt (fun a => env.tavily q d 10 a)
    q d 3 (List.range 3) 2 r h2
  exact ⟨a, List.mem_range.mp ha, hoa⟩

theorem generate_responseLoop_ok_attempt (oracle : Nat → Except String String)
    (messages : List Message) (model : String) (mr : Nat) :
    ∀ (l : List Nat) (delay : Nat) (r : String),
      (OpenAIClient.generate_responseLoop oracle messages model mr l delay).1 =
        Except.ok r →
      ∃ a, a ∈ l ∧ oracle a = Except.ok r := by
  intro l
  induction l with
  | nil => intro delay r h; exact Except.noConfusion h
  | cons attempt rest ih =>
    intro delay r h
    rw [OpenAIClient.generate_responseLoop] at h
    cases ho : oracle attempt with
    | ok r2 =>
      simp only [ho] at h
      have hr2 : r2 = r := Except.ok.inj h
      exact ⟨attempt, List.mem_cons_self _ _, by rw [ho, hr2]⟩
    | error e =>
      simp only [ho] at h
      by_cases hlast : (attempt == mr - 1) = true
      · rw [if_pos hlast] at h
        exact Except.noConfusion h
      · rw [if_neg hlast] at h
        obtain ⟨a, ha, hoa⟩ := ih (delay * 2) r h
        exact ⟨a, List.mem_cons_of_mem _ ha, hoa⟩

theorem generate_ok_attempt (env : Env) (messages : List Message) (model : String)
    (r : String)
    (h : (OpenAIClient.generate_response env messages model).1 = Except.ok r) :
    ∃ a, a < 3 ∧ env.llm messages model a = Except.ok r := by
  have h2 : (OpenAIClient.generate_responseLoop (env.llm messages model) messages
      model 3 (List.range 3) 1).1 = Except.ok r := h
  obtain ⟨a, ha, hoa⟩ := generate_responseLoop_ok_attempt (env.llm messages model)
    messages model 3 (List.range 3) 1 r h2
  exact ⟨a, List.mem_range.mp ha, hoa⟩

theorem search_error_attempts (env : Env) (q d : String) (e : HTTPException)
    (h : (TavilyResearch.search env q d).1 = Except.error e) :
    (∃ m0, env.tavily q d 10 0 = Except.error m0) ∧
    (∃ m1, env.tavily q d 10 1 = Except.error m1) ∧
    ∃ m, env.tavily q d 10 2 = Except.error m ∧
      e = ⟨500, "Tavily API error: " ++ m⟩ := by
  rw [TavilyResearch.search] at h
  have hr : List.range 3 = [0, 1, 2] := rfl
  rw [hr] at h
  rcases h0 : env.tavily q d 10 0 with m0 | r0 <;>
    rcases h1 : env.tavily q d 10 1 with m1 | r1 <;>
      rcases h2 : env.tavily q d 10 2 with m2 | r2 <;>
        simp [TavilyResearch.searchLoop, h0, h1, h2] at h <;>
          exact ⟨⟨m0, rfl⟩, ⟨m1, rfl⟩, m2, rfl, by rw [← h]⟩

theorem generate_error_attempts (env : Env) (messages : List Message)
    (model : String) (e : HTTPException)
    (h : (OpenAIClient.generate_response env messages model).1 = Except.error e) :
    (∃ m0, env.llm messages model 0 = Except.error m0) ∧
    (∃ m1, env.llm messages model 1 = Except.error m1) ∧
    ∃ m, env.llm messages model 2 = Except.error m ∧
      e = ⟨500, "OpenAI API error: " ++ m⟩ := by
  rw [OpenAIClient.generate_response] at h
  have hr : List.range 3 = [0, 1, 2] := rfl
  rw [hr] at h
  rcases h0 : env.llm messages model 0 with m0 | r0 <;>
    rcases h1 : env.llm messages model 1 with m1 | r1 <;>
      rcases h2 : env.llm messages model 2 with m2 | r2 <;>
        simp [OpenAIClient.generate_responseLoop, h0, h1, h2] at h <;>
          exact ⟨⟨m0, rfl⟩, ⟨m1, rfl⟩, m2, rfl, by rw [← h]⟩



theorem processQueries_error_source (env : Env) (company : String) :
    ∀ (l : List String) (acc : String) (e : HTTPException) (evs : List Event),
      CompanyResearch.processQueries env company l acc = (Except.error e, evs) →
      ∃ q, q ∈ l ∧
        (TavilyResearch.search env (formatQuery q company) "basic").1 =
          Except.error e := by
  intro l
  induction l with
  | nil =>
    intro acc e evs h
    simp [CompanyResearch.processQueries] at h
  | cons query rest ih =>
    intro acc e evs h
    rw [CompanyResearch.processQueries] at h
    by_cases hs : (formatQuery query company).length < 5
    · rw [if_pos hs] at h
      obtain ⟨q, hq, hsr⟩ := ih acc e evs h
      exact ⟨q, List.mem_cons_of_mem _ hq, hsr⟩
    · rw [if_neg hs] at h
      rcases hsr : TavilyResearch.search env (formatQuery query company) "basic"
        with ⟨sr, sevs⟩
      rw [hsr] at h
      cases sr with
      | error e2 =>
        have h2 : (Except.error e2 : Except HTTPException String) = Except.error e :=
          congrArg Prod.fst h
        have he : e2 = e := Except.error.inj h2
        exact ⟨query, List.mem_cons_self _ _, by rw [hsr, he]⟩
      | ok search_results =>
        rcases hrec : CompanyResearch.processQueries env company rest
            (CompanyResearch.combineStep acc
              (CompanyResearch.query_contentOf search_results)) with ⟨rr, revs⟩
        simp only [hrec, Prod.mk.injEq] at h
        obtain ⟨hrr, hev⟩ := h
        obtain ⟨q, hq, hsq⟩ := ih _ e revs (by rw [hrec, hrr])
        exact ⟨q, List.mem_cons_of_mem _ hq, hsq⟩

theorem processSection_error_source (env : Env) (mdl company : String)
    (s : ResearchSection) (e : HTTPException)
    (h : (CompanyResearch.processSection env mdl company s).1 = Except.error e) :
    (∃ q, q ∈ sectionQueries s ∧
      (TavilyResearch.search env (formatQuery q company) "basic").1 =
        Except.error e) ∨
    (∃ cc, (OpenAIClient.generate_response env
      (CompanyResearch.extractMessages cc s.name) mdl).1 = Except.error e) := by
  rw [CompanyResearch.processSection] at h
  rcases hpq : CompanyResearch.processQueries env company (sectionQueries s) ""
    with ⟨pr, pevs⟩
  rw [hpq] at h
  cases pr with
  | error e2 =>
    have he : e2 = e := by simpa using h
    left
    exact processQueries_error_source env company (sectionQueries s) "" e pevs
      (by rw [hpq, he])
  | ok cc =>
    rcases hex : CompanyResearch.extract_section_info env mdl cc s.name with ⟨er, eevs⟩
    simp only [hex] at h
    cases er with
    | error e2 =>
      have he : e2 = e := by simpa using h
      right
      refine ⟨cc, ?_⟩
      rw [CompanyResearch.extract_section_info] at hex
      rw [hex, ← he]
    | ok info => simp at h

theorem processSections_error_source (env : Env) (mdl company : String) :
    ∀ (sections : List ResearchSection) (e : HTTPException),
      (CompanyResearch.processSections env mdl company sections).1 =
        Except.error e →
      ∃ s, s ∈ sections ∧
        ((∃ q, q ∈ sectionQueries s ∧
          (TavilyResearch.search env (formatQuery q company) "basic").1 =
            Except.error e) ∨
         (∃ cc, (OpenAIClient.generate_response env
           (CompanyResearch.extractMessages cc s.name) mdl).1 =
             Except.error e)) := by
  intro sections
  induction sections with
  | nil => intro e h; exact Except.noConfusion h
  | cons s rest ih =>
    intro e h
    rw [CompanyResearch.processSections] at h
    rcases hps : CompanyResearch.processSection env mdl company s with ⟨sr, sevs⟩
    rw [hps] at h
    cases sr with
    | error e2 =>
      have he : e2 = e := by simpa using h
      exact ⟨s, List.mem_cons_self _ _,
        processSection_error_source env mdl company s e (by rw [hps, he])⟩
    | ok entry =>
      rcases hrec : CompanyResearch.processSections env mdl company rest with ⟨rr, revs⟩
      simp only [hrec] at h
      cases rr with
      | error e2 =>
        have he : e2 = e := by simpa using h
        obtain ⟨s2, hs2, hd⟩ := ih e (by rw [hrec, he])
        exact ⟨s2, List.mem_cons_of_mem _ hs2, hd⟩
      | ok entries => simp at h

theorem research_company_error_source (env : Env) (self : Researcher)
    (company : String) (e : HTTPException)
    (h : (CompanyResearch.research_company env self company).1 = Except.error e) :
    ((OpenAIClient.generate_response env
      (CompanyResearch.resolveMessages company) self.model).1 = Except.error e) ∨
    (CompanyResearch.processSections env self.model company
      self.research_sections).1 = Except.error e := by
  rw [CompanyResearch.research_company] at h
  rcases hres : CompanyResearch.resolve_company_info env self.model company
    with ⟨rr, revs⟩
  rw [hres] at h
  cases rr with
  | error e2 =>
    have he : e2 = e := by simpa using h
    left
    rw [CompanyResearch.resolve_company_info] at hres
    rw [hres, ← he]
  | ok resolved =>
    rcases hsec : CompanyResearch.processSections env self.model company
        self.research_sections with ⟨sr, sevs⟩
    simp only [hsec] at h
    cases sr with
    | error e2 =>
      have he : e2 = e := by simpa using h
      right
      exact congrArg Except.error he
    | ok entries => simp at h

theorem endpoint_error_source (env : Env) (self : Researcher) (company : String)
    (err : HTTPException)
    (h : (research_company_endpoint env self company).1 = Except.error err) :
    ∃ e, (CompanyResearch.research_company env self company).1 = Except.error e ∧
      err = ⟨500, strOfHTTPException e⟩ := by
  rw [research_company_endpoint] at h
  rcases hrc : CompanyResearch.research_company env self company with ⟨rr, revs⟩
  rw [hrc] at h
  cases rr with
  | error e =>
    have h2 : (⟨500, strOfHTTPException e⟩ : HTTPException) = err := by simpa using h
    exact ⟨e, rfl, h2.symm⟩
  | ok p => simp at h



theorem processQueries_ok_searches (env : Env) (company : String) :
    ∀ (l : List String) (acc res : String) (evs : List Event),
      CompanyResearch.processQueries env company l acc = (Except.ok res, evs) →
      ∀ q ∈ l, ¬ (formatQuery q company).length < 5 →
        ∃ r, (TavilyResearch.search env (formatQuery q company) "basic").1 =
          Except.ok r := by
  intro l
  induction l with
  | nil => intro acc res evs h q hq; simp at hq
  | cons query rest ih =>
    intro acc res evs h q hq hlen
    rw [CompanyResearch.processQueries] at h
    by_cases hs : (formatQuery query company).length < 5
    · rw [if_pos hs] at h
      rcases List.mem_cons.mp hq with rfl | hq2
      · exact absurd hs hlen
      · exact ih acc res evs h q hq2 hlen
    · rw [if_neg hs] at h
      rcases hsr : TavilyResearch.search env (formatQuery query company) "basic"
        with ⟨sr, sevs⟩
      rw [hsr] at h
      cases sr with
      | error e => exact Except.noConfusion (congrArg Prod.fst h)
      | ok search_results =>
        rcases List.mem_cons.mp hq with rfl | hq2
        · exact ⟨search_results, by rw [hsr]⟩
        · rcases hrec : CompanyResearch.processQueries env company rest
              (CompanyResearch.combineStep acc
                (CompanyResearch.query_contentOf search_results)) with ⟨rr, revs⟩
          simp only [hrec, Prod.mk.injEq] at h
          exact ih _ res revs (by rw [hrec, h.1]) q hq2 hlen

theorem processSections_ok_searches (env : Env) (mdl company : String) :
    ∀ (sections : List ResearchSection) (entries : List (String × String))
      (evs : List Event),
      CompanyResearch.processSections env mdl company sections =
        (Except.ok entries, evs) →
      ∀ s ∈ sections, ∀ q ∈ sectionQueries s,
        ¬ (formatQuery q company).length < 5 →
        ∃ r, (TavilyResearch.search env (formatQuery q company) "basic").1 =
          Except.ok r := by
  intro sections
  induction sections with
  | nil => intro entries evs h s hs; simp at hs
  | cons s0 rest ih =>
    intro entries evs h s hs q hq hlen
    rw [CompanyResearch.processSections] at h
    rcases hps : CompanyResearch.processSection env mdl company s0 with ⟨sr, sevs⟩
    rw [hps] at h
    cases sr with
    | error e => exact Except.noConfusion (congrArg Prod.fst h)
    | ok entry =>
      rcases hrec : CompanyResearch.processSections env mdl company rest with ⟨rr, revs⟩
      simp only [hrec] at h
      cases rr with
      | error e => exact Except.noConfusion (congrArg Prod.fst h)
      | ok entries2 =>
        rcases List.mem_cons.mp hs with rfl | hs2
        · rw [CompanyResearch.processSection] at hps
          rcases hpq : CompanyResearch.processQueries env company
              (sectionQueries s) "" with ⟨pr, pevs⟩
          rw [hpq] at hps
          cases pr with
          | error e => exact Except.noConfusion (congrArg Prod.fst hps)
          | ok cc =>
            exact processQueries_ok_searches env company (sectionQueries s) "" cc
              pevs hpq q hq hlen
        · exact ih entries2 revs (by rw [hrec]) s hs2 q hq hlen

theorem sectionsQueries_mem_of (t : String) (s : ResearchSection) :
    ∀ (sections : List ResearchSection), s ∈ sections → t ∈ sectionQueries s →
      t ∈ sectionsQueries sections := by
  intro sections
  induction sections with
  | nil => intro hs; simp at hs
  | cons s0 rest ih =>
    intro hs ht
    rw [sectionsQueries]
    rcases List.mem_cons.mp hs with rfl | hs2
    · exact List.mem_append_left _ ht
    · exact List.mem_append_right _ (ih hs2 ht)

theorem sectionsQueries_mem_inv (t : String) :
    ∀ (sections : List ResearchSection), t ∈ sectionsQueries sections →
      ∃ s, s ∈ sections ∧ t ∈ sectionQueries s := by
  intro sections
  induction sections with
  | nil => intro ht; simp [sectionsQueries] at ht
  | cons s0 rest ih =>
    intro ht
    rw [sectionsQueries] at ht
    rcases List.mem_append.mp ht with h1 | h1
    · exact ⟨s0, List.mem_cons_self _ _, h1⟩
    · obtain ⟨s, hs, hts⟩ := ih h1
      exact ⟨s, List.mem_cons_of_mem _ hs, hts⟩

theorem research_company_ok_sections (env : Env) (self : Researcher)
    (company : String) (p : CompanyProfile) (evs : List Event)
    (h : CompanyResearch.research_company env self company = (Except.ok p, evs)) :
    ∃ sevs, CompanyResearch.processSections env self.model company
      self.research_sections = (Except.ok p.sections, sevs) := by
  rw [CompanyResearch.research_company] at h
  rcases hres : CompanyResearch.resolve_company_info env self.model company
    with ⟨rr, revs⟩
  rw [hres] at h
  cases rr with
  | error e => exact Except.noConfusion (congrArg Prod.fst h)
  | ok resolved =>
    rcases hsec : CompanyResearch.processSections env self.model company
        self.research_sections with ⟨sr, sevs⟩
    simp only [hsec] at h
    cases sr with
    | error e => exact Except.noConfusion (congrArg Prod.fst h)
    | ok entries =>
      simp only [Prod.mk.injEq] at h
      obtain ⟨hp, hv⟩ := h
      have hp2 := (Except.ok.inj hp).symm
      subst hp2
      exact ⟨sevs, rfl⟩

/-! ## The claims -/
/-- Claim C3: each outbound client makes at most 3 attempts per call; the
delays between consecutive attempts are the prefix of 1, 2 (language-model
client) respectively 2, 4 (search client) determined by one sleep between
consecutive attempts (so the delay doubles each time from the documented
base), and no sleep follows the final attempt. -/
theorem claim3_retry_attempts_and_backoff (env : Env) (messages : List Message)
    (model query search_depth : String) :
    ((openaiAPICalls (OpenAIClient.generate_response env messages model).2).length ≤ 3 ∧
     sleepsOf (OpenAIClient.generate_response env messages model).2 =
       (List.range
         ((openaiAPICalls (OpenAIClient.generate_response env messages model).2).length
           - 1)).map (fun i => 1 * 2 ^ i) ∧
     ∀ s, (OpenAIClient.generate_response env messages model).2.getLast? ≠
       some (Event.sleep s)) ∧
    ((tavilyAPICalls (TavilyResearch.search env query search_depth).2).length ≤ 3 ∧
     sleepsOf (TavilyResearch.search env query search_depth).2 =
       (List.range
         ((tavilyAPICalls (TavilyResearch.search env query search_depth).2).length
           - 1)).map (fun i => 2 * 2 ^ i) ∧
     ∀ s, (TavilyResearch.search env query search_depth).2.getLast? ≠
       some (Event.sleep s)) := by
  constructor
  · have hr : List.range 3 = [0, 1, 2] := rfl
    rcases h0 : env.llm messages model 0 with e0 | v0 <;>
      rcases h1 : env.llm messages model 1 with e1 | v1 <;>
        rcases h2 : env.llm messages model 2 with e2 | v2 <;>
          simp [OpenAIClient.generate_response, OpenAIClient.generate_responseLoop, hr,
            h0, h1, h2, openaiAPICalls, sleepsOf, List.filterMap_cons, List.range_succ,
            List.getLast?]
  · have hr : List.range 3 = [0, 1, 2] := rfl
    rcases h0 : env.tavily query search_depth 10 0 with e0 | v0 <;>
      rcases h1 : env.tavily query search_depth 10 1 with e1 | v1 <;>
        rcases h2 : env.tavily query search_depth 10 2 with e2 | v2 <;>
          simp [TavilyResearch.search, TavilyResearch.searchLoop, hr,
            h0, h1, h2, tavilyAPICalls, sleepsOf, List.filterMap_cons, List.range_succ,
            List.getLast?]

/-- Claim C4: a formatted query shorter than 5 characters is never sent to
the search client (whatever else happens), and on a successful run the
queries sent to the search client are exactly the formatted queries of
length at least 5, in order. -/
theorem claim4_short_queries_skipped (env : Env) (mdl company : String)
    (sections : List ResearchSection) :
    (∀ q ∈ searchCallQueries
      (CompanyResearch.processSections env mdl company sections).2,
      ¬ q.length < 5) ∧
    (∀ entries,
      (CompanyResearch.processSections env mdl company sections).1 =
        Except.ok entries →
      searchCallQueries
        (CompanyResearch.processSections env mdl company sections).2 =
        (formattedQueries company sections).filter
          (fun q => !decide (q.length < 5))) := by
  refine ⟨processSections_searchCalls_not_short env mdl company sections, ?_⟩
  intro entries h
  rcases hps : CompanyResearch.processSections env mdl company sections with ⟨rr, revs⟩
  rw [hps] at h
  have h2 : rr = Except.ok entries := h
  subst h2
  exact (processSections_ok_parts env mdl company sections entries revs hps).2.2.1

/-- Witness for C4 at concrete environments: the first formatted query is
not short and is sent; with every search succeeding, the searched queries
are exactly the length-filtered formatted queries. -/
theorem claim4_witness :
    (¬ ("When was AAPL founded?").length < 5) ∧
    searchCallQueries (CompanyResearch.processSections okEnv
      "anthropic/claude-3.5-sonnet" "AAPL" researcher.research_sections).2 =
      (formattedQueries "AAPL" researcher.research_sections).filter
        (fun q => !decide (q.length < 5)) := by
  constructor
  · exact (claim4_short_queries_skipped searchFailEnv "anthropic/claude-3.5-sonnet"
      "AAPL" researcher.research_sections).1 "When was AAPL founded?" (by decide)
  · exact (claim4_short_queries_skipped okEnv "anthropic/claude-3.5-sonnet"
      "AAPL" researcher.research_sections).2
      [("founded_year", "summary"), ("managing_director", "summary"),
       ("introduction", "summary"), ("company_overview", "summary"),
       ("business_segments", "summary"), ("leadership", "summary"),
       ("financial_performance", "summary"),
       ("business_segment_deep_dive", "summary"),
       ("recent_developments", "summary"), ("industry_outlook", "summary")]
      (by rfl)

/-- Claim C5: on a successful request every hardcoded template of every
section is searched exactly once, in order (no query is suppressed, because
every formatted query has length at least 5 whatever the company input),
and each section has between 1 and 3 templates. -/
theorem claim5_every_template_executed (env : Env) (company : String)
    (h : (research_company_endpoint env researcher company).1.isOk = true) :
    searchCallQueries (research_company_endpoint env researcher company).2 =
      formattedQueries company researcher.research_sections ∧
    (∀ s ∈ researcher.research_sections,
      1 ≤ (sectionQueries s).length ∧ (sectionQueries s).length ≤ 3) ∧
    ∀ q ∈ formattedQueries company researcher.research_sections, 5 ≤ q.length := by
  refine ⟨?_, by decide, ?_⟩
  · rcases hfull : research_company_endpoint env researcher company with ⟨rr, revs⟩
    rw [hfull] at h
    cases rr with
    | error e => exact Bool.noConfusion h
    | ok p =>
      have hrc := endpoint_ok env researcher company p revs hfull
      have h5 := (research_company_ok_parts env researcher company p revs hrc).2.2.2.2.1
      exact h5.trans (formatted_filter_eq_self company)
  · intro q hq
    rw [formattedQueries] at hq
    rcases List.mem_map.mp hq with ⟨t, ht, rfl⟩
    exact five_le_formatQuery_length t company (templates_min_length t ht)

/-- Witness for C5: with every outbound call succeeding, the request
succeeds and all 26 formatted queries are searched. -/
theorem claim5_witness :
    ((research_company_endpoint okEnv researcher "AAPL").1.isOk = true) ∧
    searchCallQueries (research_company_endpoint okEnv researcher "AAPL").2 =
      formattedQueries "AAPL" researcher.research_sections :=
  ⟨rfl, (claim5_every_template_executed okEnv "AAPL" rfl).1⟩

/-- Claim C8: every underlying search-API call of a request passes
search depth "basic" and max_results 10, whatever the environment and
company input. -/
theorem claim8_fixed_search_parameters (env : Env) (company : String) :
    ∀ x ∈ tavilyAPICalls (research_company_endpoint env researcher company).2,
      x.2.1 = "basic" ∧ x.2.2 = 10 := by
  intro x hx
  rw [endpoint_trace] at hx
  exact research_company_tavilyAPICalls env researcher company x hx

/-- Witness for C8: a concrete request makes a search-API call, and it
carries depth "basic" and max_results 10. -/
theorem claim8_witness :
    ("When was AAPL founded?", "basic", (10 : Nat)).2.1 = "basic" ∧
    ("When was AAPL founded?", "basic", (10 : Nat)).2.2 = 10 :=
  claim8_fixed_search_parameters searchFailEnv "AAPL"
    ("When was AAPL founded?", "basic", 10) (by decide)

/-- Claim C10: the summarizer is invoked exactly once per section even when
every search returns an empty result list (in particular for a section with
no query and no queries entry, which yields zero searches): it is called
with the empty string as content and the section key is still populated
with the model's reply. -/
theorem claim10_summarizer_called_unconditionally (env : Env)
    (mdl company : String) (s : ResearchSection) (lf : List Message → String)
    (hT : ∀ q d mr a, env.tavily q d mr a = Except.ok ⟨[]⟩)
    (hL : ∀ msgs m2 a, env.llm msgs m2 a = Except.ok (lf msgs)) :
    (CompanyResearch.processSection env mdl company s).1 =
      Except.ok (s.name, lf (CompanyResearch.extractMessages "" s.name)) ∧
    llmCalls (CompanyResearch.processSection env mdl company s).2 =
      [CompanyResearch.extractMessages "" s.name] := by
  obtain ⟨h1, h2⟩ := processSection_char env mdl company s (fun _ => ⟨[]⟩) lf hT hL
  have hcc : codeCombinedContent env company s = "" :=
    foldQueries_empty_responses env company hT (sectionQueries s)
  rw [codeCombinedContent] at hcc
  rw [codeCombinedContent, hcc] at h1 h2
  exact ⟨h1, h2⟩

/-- Witness for C10: a section with neither a query nor a queries entry
still gets its summarizer call (with empty content) and its key. -/
theorem claim10_witness :
    (∀ q d mr a, okEnv.tavily q d mr a = Except.ok ⟨[]⟩) ∧
    (CompanyResearch.processSection okEnv "anthropic/claude-3.5-sonnet" "X"
      ⟨"ghost_section", none, none⟩).1 =
      Except.ok ("ghost_section", "summary") ∧
    llmCalls (CompanyResearch.processSection okEnv "anthropic/claude-3.5-sonnet" "X"
      ⟨"ghost_section", none, none⟩).2 =
      [CompanyResearch.extractMessages "" "ghost_section"] := by
  refine ⟨fun q d mr a => rfl, ?_⟩
  exact claim10_summarizer_called_unconditionally okEnv "anthropic/claude-3.5-sonnet"
    "X" ⟨"ghost_section", none, none⟩ (fun _ => "summary") (fun q d mr a => rfl)
    (fun msgs m2 a => rfl)

/-- Claim C1: whenever the endpoint returns a profile, its sections mapping
holds exactly the ten fixed section keys, in order, and each key is mapped
to a summarizer reply for that section, regardless of the company input. -/
theorem claim1_profile_has_the_ten_section_keys (env : Env) (company : String)
    (p : CompanyProfile)
    (h : (research_company_endpoint env researcher company).1 = Except.ok p) :
    p.sections.map Prod.fst =
      ["founded_year", "managing_director", "introduction", "company_overview",
       "business_segments", "leadership", "financial_performance",
       "business_segment_deep_dive", "recent_developments", "industry_outlook"] ∧
    ∀ pr ∈ p.sections, ∃ cc,
      (CompanyResearch.extract_section_info env researcher.model cc pr.1).1 =
        Except.ok pr.2 := by
  rcases hfull : research_company_endpoint env researcher company with ⟨rr, revs⟩
  rw [hfull] at h
  have h2 : rr = Except.ok p := h
  subst h2
  have hrc := endpoint_ok env researcher company p revs hfull
  have parts := research_company_ok_parts env researcher company p revs hrc
  exact ⟨parts.2.2.1, parts.2.2.2.1⟩

/-- Witness for C1: in okEnv the endpoint returns the concrete profile with
the ten keys. -/
theorem claim1_witness :
    ((research_company_endpoint okEnv researcher "AAPL").1 = Except.ok okProfile) ∧
    okProfile.sections.map Prod.fst =
      ["founded_year", "managing_director", "introduction", "company_overview",
       "business_segments", "leadership", "financial_performance",
       "business_segment_deep_dive", "recent_developments", "industry_outlook"] ∧
    ∀ pr ∈ okProfile.sections, ∃ cc,
      (CompanyResearch.extract_section_info okEnv researcher.model cc pr.1).1 =
        Except.ok pr.2 :=
  ⟨rfl, claim1_profile_has_the_ten_section_keys okEnv "AAPL" okProfile rfl⟩

/-- Claim C2: for every environment and company input — whichever
section's search or summarization fails, however many earlier sections had
already completed — a failing request surfaces a 500 server error whose
detail carries the final-attempt message of an outbound call that failed
on all three of its retries; and a successful request returns the complete
ten-section profile with every search and summarization having succeeded
within its retries, so no partial profile (no proper subset of section
summaries) is ever returned to the caller. -/
theorem claim2_failure_aborts_whole_request (env : Env) (company : String) :
    (∀ err, (research_company_endpoint env researcher company).1 =
        Except.error err →
      err.status_code = 500 ∧ errorFromFinalAttempt env company err) ∧
    (∀ p, (research_company_endpoint env researcher company).1 = Except.ok p →
      completeProfileNoUltimateFailure env company p) := by
  constructor
  · intro err herr
    obtain ⟨e, hrc, herr2⟩ := endpoint_error_source env researcher company err herr
    subst herr2
    refine ⟨rfl, ?_⟩
    rcases research_company_error_source env researcher company e hrc with hres | hsec
    · obtain ⟨⟨m0, h0⟩, ⟨m1, h1⟩, m, h2, he⟩ :=
        generate_error_attempts env (CompanyResearch.resolveMessages company)
          researcher.model e hres
      subst he
      refine ⟨m, ?_, Or.inr ⟨CompanyResearch.resolveMessages company,
        Or.inl rfl, ⟨m0, h0⟩, ⟨m1, h1⟩, h2, rfl⟩⟩
      exact ⟨toString (500 : Nat) ++ ": " ++ "OpenAI API error: ",
        (String_append_assoc (toString (500 : Nat) ++ ": ")
          "OpenAI API error: " m).symm⟩
    · obtain ⟨s, hs, hd⟩ :=
        processSections_error_source env researcher.model company
          researcher.research_sections e hsec
      rcases hd with ⟨q, hq, hsearch⟩ | ⟨cc, hgen⟩
      · obtain ⟨⟨m0, h0⟩, ⟨m1, h1⟩, m, h2, he⟩ :=
          search_error_attempts env (formatQuery q company) "basic" e hsearch
        subst he
        refine ⟨m, ?_, Or.inl ⟨formatQuery q company,
          List.mem_map_of_mem _ (sectionsQueries_mem_of q s
            researcher.research_sections hs hq),
          ⟨m0, h0⟩, ⟨m1, h1⟩, h2, rfl⟩⟩
        exact ⟨toString (500 : Nat) ++ ": " ++ "Tavily API error: ",
          (String_append_assoc (toString (500 : Nat) ++ ": ")
            "Tavily API error: " m).symm⟩
      · obtain ⟨⟨m0, h0⟩, ⟨m1, h1⟩, m, h2, he⟩ :=
          generate_error_attempts env
            (CompanyResearch.extractMessages cc s.name) researcher.model e hgen
        subst he
        refine ⟨m, ?_, Or.inr ⟨CompanyResearch.extractMessages cc s.name,
          Or.inr ⟨cc, s, hs, rfl⟩, ⟨m0, h0⟩, ⟨m1, h1⟩, h2, rfl⟩⟩
        exact ⟨toString (500 : Nat) ++ ": " ++ "OpenAI API error: ",
          (String_append_assoc (toString (500 : Nat) ++ ": ")
            "OpenAI API error: " m).symm⟩
  · intro p hp
    rcases hfull : research_company_endpoint env researcher company with ⟨rr, revs⟩
    rw [hfull] at hp
    have h2 : rr = Except.ok p := hp
    subst h2
    have hrc := endpoint_ok env researcher company p revs hfull
    have parts := research_company_ok_parts env researcher company p revs hrc
    obtain ⟨sevs, hsecs⟩ := research_company_ok_sections env researcher company p revs hrc
    refine ⟨parts.2.2.1, ?_, ?_⟩
    · intro q2 hq2
      rw [formattedQueries] at hq2
      rcases List.mem_map.mp hq2 with ⟨t, ht, rfl⟩
      obtain ⟨s, hs, hts⟩ := sectionsQueries_mem_inv t
        researcher.research_sections ht
      obtain ⟨r, hr⟩ := processSections_ok_searches env researcher.model company
        researcher.research_sections p.sections sevs hsecs s hs t hts
        (templates_formatted_not_short company t ht)
      obtain ⟨a, ha, hok⟩ := search_ok_attempt env (formatQuery t company)
        "basic" r hr
      exact ⟨a, ha, r, hok⟩
    · intro pr hpr
      obtain ⟨cc, hcc⟩ := parts.2.2.2.1 pr hpr
      rw [CompanyResearch.extract_section_info] at hcc
      obtain ⟨a, ha, hok⟩ := generate_ok_attempt env
        (CompanyResearch.extractMessages cc pr.1) researcher.model pr.2 hcc
      exact ⟨cc, a, ha, hok⟩

/-- Witness for C2: in lateFailEnv the request fails in the sixth section
(leadership), after the first five sections completed, with a 500 error
carrying the final-attempt message "boom"; in okEnv the request succeeds
with the complete ten-section profile and no ultimately-failed call. -/
theorem claim2_witness :
    ((research_company_endpoint lateFailEnv researcher "AAPL").1 =
      Except.error ⟨500,
        strOfHTTPException ⟨500, "Tavily API error: " ++ "boom"⟩⟩) ∧
    errorFromFinalAttempt lateFailEnv "AAPL"
      ⟨500, strOfHTTPException ⟨500, "Tavily API error: " ++ "boom"⟩⟩ ∧
    ((research_company_endpoint okEnv researcher "AAPL").1 =
      Except.ok okProfile) ∧
    completeProfileNoUltimateFailure okEnv "AAPL" okProfile := by
  have hfail : (research_company_endpoint lateFailEnv researcher "AAPL").1 =
      Except.error ⟨500,
        strOfHTTPException ⟨500, "Tavily API error: " ++ "boom"⟩⟩ := rfl
  exact ⟨hfail,
    ((claim2_failure_aborts_whole_request lateFailEnv "AAPL").1 _ hfail).2,
    rfl,
    (claim2_failure_aborts_whole_request okEnv "AAPL").2 okProfile rfl⟩

/-- Claim C6 as amended: when every search of the section succeeds, the text
passed to the summarizer is the fold of the per-query contents in template
order, where a blank-line separator precedes a query's content only when
text has already accumulated (so a query with no results adds nothing
before any content, and only a dangling separator after content), and the
summarizer's reply is stored under the section's name; when every executed
query has at least one result, this fold coincides with the blank-line join
the original claim describes. -/
theorem claim6_combined_content_amended (env : Env) (mdl company : String)
    (s : ResearchSection) (tf : String → SearchResponse)
    (lf : List Message → String)
    (hT : ∀ q d mr a, env.tavily q d mr a = Except.ok (tf q))
    (hL : ∀ msgs m2 a, env.llm msgs m2 a = Except.ok (lf msgs)) :
    (CompanyResearch.processSection env mdl company s).1 =
      Except.ok (s.name, lf (CompanyResearch.extractMessages
        (codeCombinedContent env company s) s.name)) ∧
    llmCalls (CompanyResearch.processSection env mdl company s).2 =
      [CompanyResearch.extractMessages (codeCombinedContent env company s) s.name] ∧
    ((∀ q ∈ executedQueries company s, (searchResponseFor env q).results ≠ []) →
      codeCombinedContent env company s = specCombinedContent env company s) := by
  obtain ⟨h1, h2⟩ := processSection_char env mdl company s tf lf hT hL
  exact ⟨h1, h2, fun h => codeCombined_eq_specCombined env company s h⟩

/-- Counterexample to C6 as stated: in cexEnv (first and third query of the
introduction section return no results, the second returns one), the text
the code passes to the summarizer is "Title: T\nContent: C\n\n", not the
blank-line join of the per-query blocks (which has a leading separator from
the empty first block). -/
theorem claim6_counterexample :
    (CompanyResearch.processQueries cexEnv "ACME"
      (sectionQueries introductionSection) "").1 =
        Except.ok "Title: T\nContent: C\n\n" ∧
    "Title: T\nContent: C\n\n" ≠ specCombinedContent cexEnv "ACME"
      introductionSection ∧
    llmCalls (CompanyResearch.processSection cexEnv "anthropic/claude-3.5-sonnet"
      "ACME" introductionSection).2 =
      [CompanyResearch.extractMessages "Title: T\nContent: C\n\n" "introduction"] := by
  refine ⟨by rfl, by decide, ?_⟩
  have h := processSection_char cexEnv "anthropic/claude-3.5-sonnet" "ACME"
    introductionSection
    (fun q => if q = "What are ACME's key achievements?"
      then ⟨[{ title := "T", content := "C" }]⟩ else ⟨[]⟩)
    (fun _ => "summary") (fun q d mr a => rfl) (fun msgs m2 a => rfl)
  have hcc : codeCombinedContent cexEnv "ACME" introductionSection =
      "Title: T\nContent: C\n\n" := by rfl
  rw [hcc] at h
  exact h.2

/-- Witness for the amended C6 at a concrete environment in which every
search has one result: the fold and the blank-line join coincide. -/
theorem claim6_witness :
    ((CompanyResearch.processSection fullEnv "anthropic/claude-3.5-sonnet" "AAPL"
        introductionSection).1 =
      Except.ok ("introduction", "summary")) ∧
    codeCombinedContent fullEnv "AAPL" introductionSection =
      specCombinedContent fullEnv "AAPL" introductionSection := by
  have h := claim6_combined_content_amended fullEnv "anthropic/claude-3.5-sonnet"
    "AAPL" introductionSection (fun _ => ⟨[{ title := "T", content := "C" }]⟩)
    (fun _ => "summary") (fun q d mr a => rfl) (fun msgs m2 a => rfl)
  exact ⟨h.1, h.2.2 (by decide)⟩

/-- Claim C7: resolve_company_info and extract_section_info are the plain
generate_response call on their prompt (result and trace), and the string
the language model returns is passed through verbatim. -/
theorem claim7_verbatim_model_reply (env : Env)
    (mdl input_text cc nm out : String) :
    (CompanyResearch.resolve_company_info env mdl input_text =
      OpenAIClient.generate_response env
        (CompanyResearch.resolveMessages input_text) mdl) ∧
    (CompanyResearch.extract_section_info env mdl cc nm =
      OpenAIClient.generate_response env
        (CompanyResearch.extractMessages cc nm) mdl) ∧
    (env.llm (CompanyResearch.resolveMessages input_text) mdl 0 = Except.ok out →
      (CompanyResearch.resolve_company_info env mdl input_text).1 =
        Except.ok out) ∧
    (env.llm (CompanyResearch.extractMessages cc nm) mdl 0 = Except.ok out →
      (CompanyResearch.extract_section_info env mdl cc nm).1 = Except.ok out) := by
  refine ⟨rfl, rfl, ?_, ?_⟩
  · intro h
    rw [CompanyResearch.resolve_company_info, OpenAIClient.generate_response]
    have hr : List.range 3 = [0, 1, 2] := rfl
    rw [hr, OpenAIClient.generate_responseLoop]
    simp [h]
  · intro h
    rw [CompanyResearch.extract_section_info, OpenAIClient.generate_response]
    have hr : List.range 3 = [0, 1, 2] := rfl
    rw [hr, OpenAIClient.generate_responseLoop]
    simp [h]

/-- Witness for C7: in okEnv both wrappers return the model's reply
verbatim. -/
theorem claim7_witness :
    (okEnv.llm (CompanyResearch.resolveMessages "AAPL") "m" 0 =
      Except.ok "summary") ∧
    ((CompanyResearch.resolve_company_info okEnv "m" "AAPL").1 =
      Except.ok "summary") ∧
    ((CompanyResearch.extract_section_info okEnv "m" "c" "n").1 =
      Except.ok "summary") := by
  refine ⟨rfl, ?_, ?_⟩
  · exact (claim7_verbatim_model_reply okEnv "m" "AAPL" "c" "n" "summary").2.2.1 rfl
  · exact (claim7_verbatim_model_reply okEnv "m" "AAPL" "c" "n" "summary").2.2.2 rfl

/-- Claim C9: a sequence of requests against the long-lived researcher
object behaves as if each request were the only one: the state is unchanged
across requests, so the i-th output is a function of that request's input
and environment alone; and each successful request performs its own 11
language-model calls (1 resolver + 10 summarizer) and its own 26 search
calls, with no result reused from a prior invocation. -/
theorem claim9_no_caching_across_requests (reqs : List (String × Env)) :
    runRequests researcher reqs =
      reqs.map (fun pr => research_company_endpoint pr.2 researcher pr.1) ∧
    ∀ pr ∈ reqs, ∀ p,
      (research_company_endpoint pr.2 researcher pr.1).1 = Except.ok p →
      (llmCalls (research_company_endpoint pr.2 researcher pr.1).2).length = 11 ∧
      (searchCallQueries
        (research_company_endpoint pr.2 researcher pr.1).2).length = 26 := by
  refine ⟨runRequests_eq_map reqs, ?_⟩
  intro pr hpr p hp
  rcases hfull : research_company_endpoint pr.2 researcher pr.1 with ⟨rr, revs⟩
  rw [hfull] at hp
  have h2 : rr = Except.ok p := hp
  subst h2
  have hrc := endpoint_ok pr.2 researcher pr.1 p revs hfull
  have parts := research_company_ok_parts pr.2 researcher pr.1 p revs hrc
  constructor
  · rw [parts.2.2.2.2.2]
    decide
  · rw [parts.2.2.2.2.1, formatted_filter_eq_self, formattedQueries,
      List.length_map]
    decide

/-- Witness for C9: two identical requests in okEnv; each succeeds with its
own 11 language-model calls and 26 searches. -/
theorem claim9_witness :
    (runRequests researcher [("AAPL", okEnv), ("AAPL", okEnv)] =
      [research_company_endpoint okEnv researcher "AAPL",
       research_company_endpoint okEnv researcher "AAPL"]) ∧
    ((research_company_endpoint okEnv researcher "AAPL").1 =
      Except.ok okProfile) ∧
    (llmCalls (research_company_endpoint okEnv researcher "AAPL").2).length = 11 ∧
    (searchCallQueries
      (research_company_endpoint okEnv researcher "AAPL").2).length = 26 := by
  have h := claim9_no_caching_across_requests [("AAPL", okEnv), ("AAPL", okEnv)]
  have h2 := h.2 ("AAPL", okEnv) (List.mem_cons_self _ _) okProfile rfl
  exact ⟨h.1, rfl, h2.1, h2.2⟩

end CompanyResearchModel
